import Mathlib

set_option maxRecDepth 8000

namespace FishTok

/-! Shallow embedding of `src/src/tokenizer.cpp` (the fish-shell tokenizer).

A wide-character source buffer is a `List Char`; a C `wchar_t*` cursor into the
fixed buffer is a `Nat` index measured from the start pointer, and reading at or
past the end of the list yields the NUL terminator, exactly as a C string read
does.  Loops of the C code are modelled with an explicit fuel argument so that
every definition is executable by kernel reduction; every top-level entry point
passes fuel that exceeds the number of iterations the loop can make (cursors
advance strictly and are bounded by the source length), and the fuel-exhausted
branch returns the current cursor unchanged. -/

def getC (s : List Char) (i : Nat) : Char := s.getD i '\x00'

def noNul (s : List Char) : Prop := '\x00' ∉ s

instance (s : List Char) : Decidable (noNul s) :=
  inferInstanceAs (Decidable ('\x00' ∉ s))

/-- The source slice `s[a..b)` in code points. -/
def sliceCh (s : List Char) (a b : Nat) : List Char := (s.drop a).take (b - a)

def INT_MAX : Int := 2147483647

/-! Character classifiers.  `iswdigit`, `iswspace`, `iswalnum`, `iswblank` and
`iswgraph` model the C library classifiers on the ASCII range (the tokenizer
applies them to shell syntax characters). -/

def iswdigit (c : Char) : Bool := 48 ≤ c.toNat && c.toNat ≤ 57

def iswspace (c : Char) : Bool := c.toNat = 32 || (9 ≤ c.toNat && c.toNat ≤ 13)

def iswblank (c : Char) : Bool := c.toNat = 32 || c.toNat = 9

def iswgraph (c : Char) : Bool := 33 ≤ c.toNat && c.toNat ≤ 126

def iswalnum (c : Char) : Bool :=
  iswdigit c || (65 ≤ c.toNat && c.toNat ≤ 90) || (97 ≤ c.toNat && c.toNat ≤ 122)

/-- `myal`: quick test for `a`..`z`, `A`..`Z` (the fast path of `read_string`). -/
def myal (c : Char) : Bool :=
  (97 ≤ c.toNat && c.toNat ≤ 122) || (65 ≤ c.toNat && c.toNat ≤ 90)

/-- `iswspace_not_nl`: whitespace except newline. -/
def iswspace_not_nl (c : Char) : Bool :=
  if c = ' ' ∨ c = '\t' ∨ c = '\r' then true
  else if c = '\n' then false
  else iswspace c

/-- `tok_is_string_character`: can `c` be part of a string token?  `^` is
allowed unless it is the first character. -/
def tok_is_string_character (c : Char) (first : Bool) : Bool :=
  if c = '\x00' ∨ c = ' ' ∨ c = '\n' ∨ c = '|' ∨ c = '\t' ∨ c = ';' ∨ c = '\r' ∨
      c = '<' ∨ c = '>' ∨ c = '&' then false
  else if c = '^' then !first
  else true

inductive token_type where
  | TOK_NONE
  | TOK_ERROR
  | TOK_STRING
  | TOK_PIPE
  | TOK_END
  | TOK_REDIRECT_OUT
  | TOK_REDIRECT_APPEND
  | TOK_REDIRECT_IN
  | TOK_REDIRECT_FD
  | TOK_REDIRECT_NOCLOB
  | TOK_BACKGROUND
  | TOK_COMMENT
deriving DecidableEq

inductive tokenizer_error where
  | TOK_ERROR_NONE
  | TOK_UNTERMINATED_QUOTE
  | TOK_UNTERMINATED_SUBSHELL
  | TOK_UNTERMINATED_SLICE
  | TOK_UNTERMINATED_ESCAPE
  | TOK_INVALID_REDIRECT
  | TOK_INVALID_PIPE
deriving DecidableEq

open token_type tokenizer_error

/-- The canonical localized error message placed into the token text by
`call_error` when errors are not squashed. -/
def canonical_message : tokenizer_error → List Char
  | TOK_UNTERMINATED_QUOTE => "Unexpected end of string, quotes are not balanced".toList
  | TOK_UNTERMINATED_SUBSHELL => "Unexpected end of string, parenthesis do not match".toList
  | TOK_UNTERMINATED_SLICE => "Unexpected end of string, square brackets do not match".toList
  | TOK_UNTERMINATED_ESCAPE => "Unexpected end of string, incomplete escape sequence".toList
  | TOK_INVALID_REDIRECT => "Invalid input/output redirection".toList
  | TOK_INVALID_PIPE => "Cannot use stdin (fd 0) as pipe output".toList
  | TOK_ERROR_NONE => []

/-- The mutable tokenizer state (`tokenizer_t`).  The member defaults of the
header (not under `src/`) follow the spec: `has_next` starts true, the cursor
at the start, the scratch token empty. -/
structure tokenizer_t where
  s : List Char
  buff : Nat
  accept_unfinished : Bool
  show_comments : Bool
  squash_errors : Bool
  show_blank_lines : Bool
  has_next : Bool
  continue_line_after_comment : Bool
  last_token : List Char
  last_pos : Nat
  last_type : token_type
  error : tokenizer_error
  global_error_offset : Nat
deriving DecidableEq

/-- The constructor `tokenizer_t(start, flags)`, with the flag bitset split
into its four booleans. -/
def tokenizer_make (s : List Char) (accept_unfinished show_comments squash_errors
    show_blank_lines : Bool) : tokenizer_t :=
  ⟨s, 0, accept_unfinished, show_comments, squash_errors, show_blank_lines,
   true, false, [], 0, TOK_NONE, TOK_ERROR_NONE, 0⟩

/-- `tokenizer_t::call_error`: record an error, stop the stream, and set the
token text to the canonical message (or clear it under squash). -/
def call_error (t : tokenizer_t) (error_type : tokenizer_error) (loc : Nat) : tokenizer_t :=
  { t with
    last_type := TOK_ERROR
    error := error_type
    has_next := false
    global_error_offset := loc
    last_token := if t.squash_errors then [] else canonical_message error_type }

/-- The output token (`tok_t`). -/
structure tok_t where
  text : List Char
  type : token_type
  offset : Nat
  length : Nat
  error : tokenizer_error
  error_offset : Nat
deriving DecidableEq

def tok_dummy : tok_t := ⟨[], TOK_NONE, 0, 0, TOK_ERROR_NONE, 0⟩

/-- One scan step of `quote_end`; see `quote_end` below. -/
def quote_end_scan (fuel : Nat) (s : List Char) (q : Char) (i : Nat) : Option Nat :=
  match fuel with
  | 0 => none
  | fuel + 1 =>
    if getC s i = '\x00' then none
    else if getC s i = '\\' then
      if getC s (i + 1) = '\x00' then none else quote_end_scan fuel s q (i + 2)
    else if getC s i = q then some i
    else quote_end_scan fuel s q (i + 1)

/-- Modelled from the spec: `quote_end` is called by `read_string` but defined
outside the given sources.  Per the spec (section 4.2): given a cursor pointing
at a quote character, scan forward for the matching closer; a backslash escapes
one following code point inside the quoted span (and does not terminate on it);
return the position of the closing quote, or "not found" at end of input. -/
def quote_end (s : List Char) (pos : Nat) : Option Nat :=
  quote_end_scan (s.length + 1) s (getC s pos) (pos + 1)

def wcslen_scan (fuel : Nat) (s : List Char) (i : Nat) : Nat :=
  match fuel with
  | 0 => i
  | fuel + 1 => if getC s i = '\x00' then i else wcslen_scan fuel s (i + 1)

/-- The index of the NUL terminator at or after `i`; models the C idiom
`buff += wcslen(buff)`. -/
def wcslen_from (s : List Char) (i : Nat) : Nat := wcslen_scan (s.length + 1) s i

inductive tok_mode where
  | mode_regular_text
  | mode_subshell
  | mode_array_brackets
  | mode_array_brackets_and_subshell
deriving DecidableEq

open tok_mode

/-- The loop-local state of `tokenizer_t::read_string`: the cursor, the 4-state
mode, the paren counter with its bounded offset stack (96 slots), the recorded
`[` offset, the `is_first` flag, and the `do_loop` flag. -/
structure rs_state where
  buff : Nat
  mode : tok_mode
  paran_count : Nat
  paran_offsets : List Nat
  offset_of_bracket : Nat
  first : Bool
  do_loop : Bool
deriving DecidableEq

/-- Outcome of the `read_string` scan loop: either `call_error` was invoked
(with the error kind, the error location, and the final cursor), or the loop
broke with its final locals. -/
inductive rs_out where
  | err (error_type : tokenizer_error) (loc : Nat) (endBuff : Nat)
  | done (endBuff : Nat) (mode : tok_mode) (paran_count : Nat)
      (paran_offsets : List Nat) (offset_of_bracket : Nat)
deriving DecidableEq

/-- One iteration of the `while (1)` loop of `read_string`.  `Sum.inl` loops
again; `Sum.inr` leaves the loop.  The common tail
`if (!do_loop) break; buff++; is_first = false;` is the local `after`;
the backslash branch ends in `continue` and so skips it. -/
def rs_step (s : List Char) (accept_unfinished : Bool) (buff_start : Nat)
    (st : rs_state) : rs_state ⊕ rs_out :=
  let after := fun (st' : rs_state) =>
    if st'.do_loop then
      Sum.inl { st' with buff := st'.buff + 1, first := false }
    else
      Sum.inr (rs_out.done st'.buff st'.mode st'.paran_count st'.paran_offsets
        st'.offset_of_bracket)
  let c := getC s st.buff
  if myal c then after st
  else if c = '\\' then
    if getC s (st.buff + 1) = '\x00' then
      if accept_unfinished = false then
        Sum.inr (rs_out.err TOK_UNTERMINATED_ESCAPE st.buff (st.buff + 1))
      else
        -- decrement before the unconditional increment (issue #389), then
        -- `continue`: net cursor change +1, and do_loop is now 0
        Sum.inl { st with buff := st.buff + 1, do_loop := false }
    else Sum.inl { st with buff := st.buff + 2 }
  else
    match st.mode with
    | mode_regular_text =>
      if c = '(' then
        after { st with paran_count := 1, paran_offsets := st.paran_offsets.set 0 st.buff,
                        mode := mode_subshell }
      else if c = '[' then
        after (if st.buff ≠ buff_start then
          { st with mode := mode_array_brackets, offset_of_bracket := st.buff }
        else st)
      else if c = '\'' ∨ c = '"' then
        match quote_end s st.buff with
        | some e => after { st with buff := e }
        | none =>
          if accept_unfinished = false then
            Sum.inr (rs_out.err TOK_UNTERMINATED_QUOTE st.buff (wcslen_from s st.buff))
          else after { st with buff := wcslen_from s st.buff, do_loop := false }
      else
        after (if tok_is_string_character c st.first then st else { st with do_loop := false })
    | mode_subshell | mode_array_brackets_and_subshell =>
      if c = '\'' ∨ c = '"' then
        match quote_end s st.buff with
        | some e => after { st with buff := e }
        | none =>
          if accept_unfinished = false then
            Sum.inr (rs_out.err TOK_UNTERMINATED_QUOTE st.buff (wcslen_from s st.buff))
          else after { st with buff := wcslen_from s st.buff, do_loop := false }
      else if c = '(' then
        after
          { st with
            paran_offsets :=
              if st.paran_count < 96 then st.paran_offsets.set st.paran_count st.buff
              else st.paran_offsets
            paran_count := st.paran_count + 1 }
      else if c = ')' then
        -- the C code asserts paran_count > 0 here; 0 is unreachable in the loop
        after
          { st with
            paran_count := st.paran_count - 1
            mode :=
              if st.paran_count - 1 = 0 then
                (if st.mode = mode_array_brackets_and_subshell then mode_array_brackets
                 else mode_regular_text)
              else st.mode }
      else if c = '\x00' then after { st with do_loop := false }
      else after st
    | mode_array_brackets =>
      if c = '(' then
        after { st with paran_count := 1, paran_offsets := st.paran_offsets.set 0 st.buff,
                        mode := mode_array_brackets_and_subshell }
      else if c = ']' then after { st with mode := mode_regular_text }
      else if c = '\x00' then after { st with do_loop := false }
      else after st

/-- The `while (1)` loop of `read_string`, iterating `rs_step`. -/
def rs_loop (fuel : Nat) (s : List Char) (accept_unfinished : Bool) (buff_start : Nat)
    (st : rs_state) : rs_out :=
  match fuel with
  | 0 => rs_out.done st.buff st.mode st.paran_count st.paran_offsets st.offset_of_bracket
  | fuel + 1 =>
    match rs_step s accept_unfinished buff_start st with
    | Sum.inl st' => rs_loop fuel s accept_unfinished buff_start st'
    | Sum.inr out => out

/-- Result of `read_string`: a string token ending at `endBuff`, or an error
(kind, location, final cursor). -/
inductive rs_result where
  | str (endBuff : Nat)
  | err (error_type : tokenizer_error) (loc : Nat) (endBuff : Nat)
deriving DecidableEq

def rs_init (buff_start : Nat) : rs_state :=
  ⟨buff_start, mode_regular_text, 0, List.replicate 96 0, 0, true, true⟩

/-- `tokenizer_t::read_string`, started at `buff_start`.  After the loop, a
non-regular mode in strict mode reports the unterminated subshell (at the
innermost recorded open paren, or 0 when the 96-slot stack overflowed) or the
unterminated slice (at the recorded bracket). -/
def read_string (s : List Char) (accept_unfinished : Bool) (buff_start : Nat) : rs_result :=
  match rs_loop (s.length + 1) s accept_unfinished buff_start (rs_init buff_start) with
  | rs_out.err e loc endB => rs_result.err e loc endB
  | rs_out.done endB mode pc po ob =>
    if accept_unfinished then rs_result.str endB
    else
      match mode with
      | mode_regular_text => rs_result.str endB
      | mode_subshell =>
        rs_result.err TOK_UNTERMINATED_SUBSHELL (if pc ≤ 96 then po.getD (pc - 1) 0 else 0) endB
      | mode_array_brackets => rs_result.err TOK_UNTERMINATED_SLICE ob endB
      | mode_array_brackets_and_subshell => rs_result.err TOK_UNTERMINATED_SLICE ob endB

/-- The digit-consuming loop of `read_redirection_or_fd_pipe`: consume all
digits (important even on overflow), accumulating while `big_fd <= INT_MAX`.
Returns the index after the digits and the accumulator. -/
def rr_digits (fuel : Nat) (s : List Char) (i : Nat) (big_fd : Int) : Nat × Int :=
  match fuel with
  | 0 => (i, big_fd)
  | fuel + 1 =>
    if iswdigit (getC s i) then
      rr_digits fuel s (i + 1)
        (if big_fd ≤ INT_MAX then big_fd * 10 + (((getC s i).toNat : Int) - 48) else big_fd)
    else (i, big_fd)

/-- The digit-run result `(idx, big_fd)` of `read_redirection_or_fd_pipe`. -/
def rr_digits_res (s : List Char) (pos : Nat) : Nat × Int :=
  rr_digits (s.length + 1) s pos 0

/-- The `fd` local of `read_redirection_or_fd_pipe`: the saturated digit value
(`-1` past `INT_MAX`), or, when no digits were consumed, the fd inferred from
the sigil (`>` is stdout 1, `<` is stdin 0, `^` is stderr 2). -/
def rr_fd_val (s : List Char) (pos : Nat) : Int :=
  if (rr_digits_res s pos).1 = pos then
    if getC s pos = '>' then 1
    else if getC s pos = '<' then 0
    else if getC s pos = '^' then 2
    else if (rr_digits_res s pos).2 > INT_MAX then -1 else (rr_digits_res s pos).2
  else if (rr_digits_res s pos).2 > INT_MAX then -1 else (rr_digits_res s pos).2

/-- Whether the fd-inference step errored: no digits and no `>`/`<`/`^`. -/
def rr_infer_err (s : List Char) (pos : Nat) : Bool :=
  if (rr_digits_res s pos).1 = pos then
    if getC s pos = '>' then false
    else if getC s pos = '<' then false
    else if getC s pos = '^' then false
    else true
  else false

/-- The sigil step of `read_redirection_or_fd_pipe`: reads the redirection
character (upgrading a doubled `>` or `^` to append), and returns
`(mode, idx after the sigil, errored)`.  A `^` is legal only when no fd prefix
was given (#1873). -/
def rr_m1 (s : List Char) (pos : Nat) : token_type × Nat × Bool :=
  if getC s (rr_digits_res s pos).1 = '>' ∨
      (getC s (rr_digits_res s pos).1 = '^' ∧ (rr_digits_res s pos).1 = pos) then
    if getC s ((rr_digits_res s pos).1 + 1) = getC s (rr_digits_res s pos).1 then
      (TOK_REDIRECT_APPEND, (rr_digits_res s pos).1 + 2, false)
    else (TOK_REDIRECT_OUT, (rr_digits_res s pos).1 + 1, false)
  else if getC s (rr_digits_res s pos).1 = '<' then
    (TOK_REDIRECT_IN, (rr_digits_res s pos).1 + 1, false)
  else (TOK_NONE, (rr_digits_res s pos).1 + 1, true)

/-- `read_redirection_or_fd_pipe(buff)`, reading at index `pos` of `s`.
Returns `(consumed, redirection_mode, fd)`; `consumed = 0` means the input was
not a redirection, and `fd = -1` signals overflow.  After a valid sigil, an
optional `&` / `?` / `|` upgrades the mode to fd-redirection, no-clobber, or a
pipe. -/
def read_redirection_or_fd_pipe (s : List Char) (pos : Nat) : Nat × token_type × Int :=
  if rr_infer_err s pos ∨ (rr_m1 s pos).2.2 then (0, TOK_NONE, rr_fd_val s pos)
  else if getC s (rr_m1 s pos).2.1 = '&' then
    ((rr_m1 s pos).2.1 + 1 - pos, TOK_REDIRECT_FD, rr_fd_val s pos)
  else if getC s (rr_m1 s pos).2.1 = '?' then
    ((rr_m1 s pos).2.1 + 1 - pos, TOK_REDIRECT_NOCLOB, rr_fd_val s pos)
  else if getC s (rr_m1 s pos).2.1 = '|' then
    ((rr_m1 s pos).2.1 + 1 - pos, TOK_PIPE, rr_fd_val s pos)
  else ((rr_m1 s pos).2.1 - pos, (rr_m1 s pos).1, rr_fd_val s pos)

/-- `to_string(fd)`: decimal rendering of the fd. -/
def to_string (fd : Int) : List Char := (toString fd).toList

/-- The leading-whitespace loop of `tok_next`: consume non-newline whitespace;
an escaped newline is consumed too and sets `continue_line_after_comment`. -/
def skip_ws (fuel : Nat) (s : List Char) (i : Nat) (clac : Bool) : Nat × Bool :=
  match fuel with
  | 0 => (i, clac)
  | fuel + 1 =>
    if getC s i = '\\' ∧ getC s (i + 1) = '\n' then skip_ws fuel s (i + 2) true
    else if iswspace_not_nl (getC s i) then skip_ws fuel s (i + 1) clac
    else (i, clac)

/-- Walk to the end of a comment: the first `\n` or NUL at or after `i`. -/
def scan_to_nl (fuel : Nat) (s : List Char) (i : Nat) : Nat :=
  match fuel with
  | 0 => i
  | fuel + 1 =>
    if getC s i = '\n' ∨ getC s i = '\x00' then i else scan_to_nl fuel s (i + 1)

/-- The plain `while (iswspace_not_nl(...)) buff++` loop after a comment. -/
def skip_spaces (fuel : Nat) (s : List Char) (i : Nat) : Nat :=
  match fuel with
  | 0 => i
  | fuel + 1 => if iswspace_not_nl (getC s i) then skip_spaces fuel s (i + 1) else i

/-- The newline-compression loop of the `End` case: swallow `\n`, CR, space
and tab. -/
def swallow_blanks (fuel : Nat) (s : List Char) (i : Nat) : Nat :=
  match fuel with
  | 0 => i
  | fuel + 1 =>
    if getC s i = '\n' ∨ getC s i = '\r' ∨ getC s i = ' ' ∨ getC s i = '\t' then
      swallow_blanks fuel s (i + 1)
    else i

/-- Outcome of the comment loop of `tok_next`: either a comment token is
emitted (`show_comments`), with the comment start, its end (excluding the
newline) and the cursor after it, or the loop falls through at `buff2`. -/
inductive cmt_out where
  | comment (cstart cend buff2 : Nat)
  | through (buff2 : Nat)
deriving DecidableEq

/-- The `while (*buff == '#')` loop of `tok_next`. -/
def comments_loop (fuel : Nat) (s : List Char) (show_comments clac : Bool) (i : Nat) :
    cmt_out :=
  match fuel with
  | 0 => cmt_out.through i
  | fuel + 1 =>
    if getC s i = '#' then
      let e := scan_to_nl (s.length + 1) s i
      -- when continuing after the comment, also swallow the trailing newline
      let b2 := if getC s e = '\n' ∧ clac then e + 1 else e
      if show_comments then cmt_out.comment i e b2
      else comments_loop fuel s show_comments clac (skip_spaces (s.length + 1) s b2)
    else cmt_out.through i

/-- `tokenizer_t::tok_next`: the returned boolean and the updated state. -/
def tok_next (t : tokenizer_t) : Bool × tokenizer_t :=
  if t.has_next = false then (false, t)
  else
    let w := skip_ws (t.s.length + 1) t.s t.buff t.continue_line_after_comment
    match comments_loop (t.s.length + 1) t.s t.show_comments w.2 w.1 with
    | cmt_out.comment cs ce b2 =>
      (true, { t with buff := b2, continue_line_after_comment := w.2, last_pos := cs,
                      last_token := sliceCh t.s cs ce, last_type := TOK_COMMENT })
    | cmt_out.through b2 =>
      let t1 := { t with continue_line_after_comment := false, last_pos := b2, buff := b2 }
      let c := getC t.s b2
      if c = '\x00' then
        (false, { t1 with last_type := TOK_END, has_next := false, last_token := [] })
      else if c = '\r' ∨ c = '\n' ∨ c = ';' then
        let b3 := if t.show_blank_lines = false then
            swallow_blanks (t.s.length + 1) t.s (b2 + 1)
          else b2 + 1
        (true, { t1 with last_type := TOK_END, last_token := [c], buff := b3 })
      else if c = '&' then
        -- note: the C code does not assign last_token here
        (true, { t1 with last_type := TOK_BACKGROUND, buff := b2 + 1 })
      else if c = '|' then
        (true, { t1 with last_type := TOK_PIPE, last_token := ['1'], buff := b2 + 1 })
      else if c = '>' ∨ c = '<' ∨ c = '^' then
        -- these must never parse as a string; a failed redirection is an error
        let r := read_redirection_or_fd_pipe t.s b2
        if r.1 = 0 ∨ r.2.2 < 0 then (true, call_error t1 TOK_INVALID_REDIRECT b2)
        else
          (true, { t1 with buff := b2 + r.1, last_type := r.2.1, last_token := to_string r.2.2 })
      else
        let r := read_redirection_or_fd_pipe t.s b2
        let consumed := if iswdigit c then r.1 else 0
        if consumed > 0 then
          -- piping fd 0 is rejected; overflow fd -1 is not a tokenizer error here
          if r.2.1 = TOK_PIPE ∧ r.2.2 = 0 then (true, call_error t1 TOK_INVALID_PIPE b2)
          else
            (true,
              { t1 with buff := b2 + consumed, last_type := r.2.1,
                        last_token := to_string r.2.2 })
        else
          match read_string t.s t.accept_unfinished b2 with
          | rs_result.str e =>
            (true,
              { t1 with buff := e, last_token := sliceCh t.s b2 e, last_type := TOK_STRING })
          | rs_result.err er loc e => (true, call_error { t1 with buff := e } er loc)

/-- The token built by `tokenizer_t::next` from the updated state: `last_token`
is copied, `current_pos` is the cursor after `tok_next`, and the error offset
is localized into the token when the global offset falls inside it. -/
def mk_tok (u : tokenizer_t) : tok_t :=
  { text := u.last_token
    type := u.last_type
    offset := u.last_pos
    length := if u.last_pos ≤ u.buff then u.buff - u.last_pos else 0
    error := if u.last_type = TOK_ERROR then u.error else TOK_ERROR_NONE
    error_offset :=
      if u.last_type = TOK_ERROR ∧ u.last_pos ≤ u.global_error_offset ∧
          u.global_error_offset < u.buff then
        u.global_error_offset - u.last_pos
      else 0 }

/-- `tokenizer_t::next(&result)`: `none` models a false return. -/
def next (t : tokenizer_t) : Option (tok_t × tokenizer_t) :=
  if (tok_next t).1 = false then none
  else some (mk_tok (tok_next t).2, (tok_next t).2)

/-- `tok_first(str)`: tokenize with `TOK_SQUASH_ERRORS` and return the text of
the first token if it is a string token, else empty. -/
def tok_first (str : List Char) : List Char :=
  match next (tokenizer_make str false false true false) with
  | some (token, _) => if token.type = TOK_STRING then token.text else []
  | none => []

/-! The word-motion state machines.  Each `consume_char_*` member runs a small
`while (state != s_end && !consumed)` loop over a linear state descent; we model
one switch body as a step function `(consumed, next_state)` and drive it with
`consume_loop` (the fuel covers every chain through the in-range states; on the
states the C object can never reach the loop would spin, and the driver then
returns `(false, state)` unchanged). -/

def consume_loop (step : Nat → Bool × Nat) (s_end : Nat) : Nat → Nat → Bool × Nat
  | 0, st => (false, st)
  | fuel + 1, st =>
    if st = s_end then (false, st)
    else
      let r := step st
      if r.1 then (true, r.2) else consume_loop step s_end fuel r.2

/-- One pass of the switch in `consume_char_punctuation`:
states `s_always_one = 0`, `s_whitespace = 1`, `s_alphanumeric = 2`, `s_end = 3`. -/
def punct_step (c : Char) (st : Nat) : Bool × Nat :=
  if st = 0 then (true, 1)
  else if st = 1 then (if iswspace c then (true, 1) else (false, 2))
  else if st = 2 then (if iswalnum c then (true, 2) else (false, 3))
  else (false, st)

def consume_char_punctuation (c : Char) (st : Nat) : Bool × Nat :=
  consume_loop (punct_step c) 3 4 st

/-- `move_word_state_machine_t::is_path_component_character`. -/
def is_path_component_character (c : Char) : Bool :=
  tok_is_string_character c true &&
    !(c = '/' ∨ c = '=' ∨ c = '{' ∨ c = ',' ∨ c = '}' ∨ c = '\'' ∨ c = '"')

/-- One pass of the switch in `consume_char_path_components`:
states `s_initial_punctuation = 0`, `s_whitespace = 1`, `s_separator = 2`,
`s_slash = 3`, `s_path_component_characters = 4`, `s_end = 5`. -/
def path_step (c : Char) (st : Nat) : Bool × Nat :=
  if st = 0 then (!is_path_component_character c, 1)
  else if st = 1 then
    (if iswspace c then (true, 1)
     else if c = '/' ∨ is_path_component_character c then (false, 3)
     else (false, 2))
  else if st = 2 then
    (if !iswspace c && !is_path_component_character c then (true, 2) else (false, 5))
  else if st = 3 then (if c = '/' then (true, 3) else (false, 4))
  else if st = 4 then (if is_path_component_character c then (true, 4) else (false, 5))
  else (false, st)

def consume_char_path_components (c : Char) (st : Nat) : Bool × Nat :=
  consume_loop (path_step c) 5 6 st

/-- One pass of the switch in `consume_char_whitespace`:
states `s_always_one = 0`, `s_blank = 1`, `s_graph = 2`, `s_end = 3`. -/
def ws_step (c : Char) (st : Nat) : Bool × Nat :=
  if st = 0 then (true, 1)
  else if st = 1 then (if iswblank c then (true, 1) else (false, 2))
  else if st = 2 then (if iswgraph c then (true, 2) else (false, 3))
  else (false, st)

def consume_char_whitespace (c : Char) (st : Nat) : Bool × Nat :=
  consume_loop (ws_step c) 3 4 st

/-- The trace of repeated `consume_char` calls (no intervening `reset`):
each element is the returned boolean and the machine state after the call. -/
def consume_trace (f : Char → Nat → Bool × Nat) (st : Nat) : List Char → List (Bool × Nat)
  | [] => []
  | c :: cs =>
    let r := f c st
    r :: consume_trace f r.2 cs

/-- Over any run of `consume` calls without a reset: the internal state never
moves backward, and once a call returns false every later call returns false. -/
def trace_ok (f : Char → Nat → Bool × Nat) : Prop :=
  ∀ cs st i j, i ≤ j → j < (consume_trace f st cs).length →
    ((consume_trace f st cs).getD i (false, 0)).2 ≤
        ((consume_trace f st cs).getD j (false, 0)).2 ∧
      (((consume_trace f st cs).getD i (false, 0)).1 = false →
        ((consume_trace f st cs).getD j (false, 0)).1 = false)

/-! Bound lemmas for the scanning loops: cursors only move forward and stay
within the NUL-terminated source. -/

lemma getC_eq_nul (s : List Char) (i : Nat) (h : s.length ≤ i) : getC s i = '\x00' :=
  List.getD_eq_default s '\x00' h

lemma lt_of_getC_ne (s : List Char) (i : Nat) (h : getC s i ≠ '\x00') : i < s.length := by
  by_contra h'
  exact h (getC_eq_nul s i (by omega))

lemma getC_mem (s : List Char) (i : Nat) (h : i < s.length) : getC s i ∈ s := by
  unfold getC
  rw [List.getD_eq_getElem s '\x00' h]
  exact List.getElem_mem h

lemma getC_nul_of_noNul (s : List Char) (i : Nat) (hn : noNul s) :
    getC s i = '\x00' ↔ s.length ≤ i := by
  constructor
  · intro h
    by_contra h'
    exact hn (h ▸ getC_mem s i (by omega))
  · exact getC_eq_nul s i

lemma skip_ws_le (s : List Char) :
    ∀ (fuel i : Nat) (clac : Bool), i ≤ (skip_ws fuel s i clac).1 ∧
      (i ≤ s.length → (skip_ws fuel s i clac).1 ≤ s.length) := by
  intro fuel
  induction fuel with
  | zero => intro i clac; exact ⟨Nat.le_refl _, fun h => h⟩
  | succ fuel ih =>
    intro i clac
    unfold skip_ws
    split
    · rename_i h
      have h1 : i < s.length := lt_of_getC_ne s i (by rw [h.1]; decide)
      have h2 : i + 1 < s.length := lt_of_getC_ne s (i + 1) (by rw [h.2]; decide)
      have := ih (i + 2) true
      exact ⟨by omega, fun _ => this.2 (by omega)⟩
    · split
      · rename_i h
        have h0 : getC s i ≠ '\x00' := by
          intro he
          rw [he] at h
          exact absurd h (by decide)
        have h1 : i < s.length := lt_of_getC_ne s i h0
        have := ih (i + 1) clac
        exact ⟨by omega, fun _ => this.2 (by omega)⟩
      · exact ⟨Nat.le_refl _, fun h => h⟩

lemma scan_to_nl_le (s : List Char) :
    ∀ (fuel i : Nat), i ≤ scan_to_nl fuel s i ∧
      (i ≤ s.length → scan_to_nl fuel s i ≤ s.length) := by
  intro fuel
  induction fuel with
  | zero => intro i; exact ⟨Nat.le_refl _, fun h => h⟩
  | succ fuel ih =>
    intro i
    unfold scan_to_nl
    split
    · exact ⟨Nat.le_refl _, fun h => h⟩
    · rename_i h
      push_neg at h
      have h1 : i < s.length := lt_of_getC_ne s i h.2
      have := ih (i + 1)
      exact ⟨by omega, fun _ => this.2 (by omega)⟩

lemma skip_spaces_le (s : List Char) :
    ∀ (fuel i : Nat), i ≤ skip_spaces fuel s i ∧
      (i ≤ s.length → skip_spaces fuel s i ≤ s.length) := by
  intro fuel
  induction fuel with
  | zero => intro i; exact ⟨Nat.le_refl _, fun h => h⟩
  | succ fuel ih =>
    intro i
    unfold skip_spaces
    split
    · rename_i h
      have h0 : getC s i ≠ '\x00' := by
        intro he
        rw [he] at h
        exact absurd h (by decide)
      have h1 : i < s.length := lt_of_getC_ne s i h0
      have := ih (i + 1)
      exact ⟨by omega, fun _ => this.2 (by omega)⟩
    · exact ⟨Nat.le_refl _, fun h => h⟩

lemma swallow_blanks_le (s : List Char) :
    ∀ (fuel i : Nat), i ≤ swallow_blanks fuel s i ∧
      (i ≤ s.length → swallow_blanks fuel s i ≤ s.length) := by
  intro fuel
  induction fuel with
  | zero => intro i; exact ⟨Nat.le_refl _, fun h => h⟩
  | succ fuel ih =>
    intro i
    unfold swallow_blanks
    split
    · rename_i h
      have h0 : getC s i ≠ '\x00' := by
        rcases h with h | h | h | h <;> rw [h] <;> decide
      have h1 : i < s.length := lt_of_getC_ne s i h0
      have := ih (i + 1)
      exact ⟨by omega, fun _ => this.2 (by omega)⟩
    · exact ⟨Nat.le_refl _, fun h => h⟩

lemma rr_digits_le (s : List Char) :
    ∀ (fuel i : Nat) (acc : Int), i ≤ (rr_digits fuel s i acc).1 ∧
      (i ≤ s.length → (rr_digits fuel s i acc).1 ≤ s.length) := by
  intro fuel
  induction fuel with
  | zero => intro i acc; exact ⟨Nat.le_refl _, fun h => h⟩
  | succ fuel ih =>
    intro i acc
    unfold rr_digits
    split
    · rename_i h
      have h0 : getC s i ≠ '\x00' := by
        intro he
        rw [he] at h
        exact absurd h (by decide)
      have h1 : i < s.length := lt_of_getC_ne s i h0
      have := ih (i + 1) (if acc ≤ INT_MAX then acc * 10 + (((getC s i).toNat : Int) - 48) else acc)
      exact ⟨by omega, fun _ => this.2 (by omega)⟩
    · exact ⟨Nat.le_refl _, fun h => h⟩

lemma comments_loop_comment_le (s : List Char) (sc clac : Bool) :
    ∀ (fuel i : Nat), i ≤ s.length → ∀ cs ce b2,
      comments_loop fuel s sc clac i = cmt_out.comment cs ce b2 →
      i ≤ cs ∧ cs ≤ ce ∧ ce ≤ b2 ∧ b2 ≤ s.length := by
  intro fuel
  induction fuel with
  | zero => intro i hi cs ce b2 h; exact absurd h (by simp [comments_loop])
  | succ fuel ih =>
    intro i hi cs ce b2 h
    unfold comments_loop at h
    simp only [] at h
    split at h
    · rename_i hhash
      have he := scan_to_nl_le s (s.length + 1) i
      have heL : scan_to_nl (s.length + 1) s i ≤ s.length := he.2 hi
      have hb2 :
          (if getC s (scan_to_nl (s.length + 1) s i) = '\n' ∧ clac = true then
              scan_to_nl (s.length + 1) s i + 1
            else scan_to_nl (s.length + 1) s i) ≤ s.length := by
        split
        · rename_i hnl
          have : scan_to_nl (s.length + 1) s i < s.length :=
            lt_of_getC_ne s _ (by rw [hnl.1]; decide)
          omega
        · exact heL
      split at h
      · rw [cmt_out.comment.injEq] at h
        obtain ⟨h1, h2, h3⟩ := h
        subst h1; subst h2; subst h3
        exact ⟨Nat.le_refl _, he.1, by split <;> omega, hb2⟩
      · have hsk := skip_spaces_le s (s.length + 1)
          (if getC s (scan_to_nl (s.length + 1) s i) = '\n' ∧ clac = true then
              scan_to_nl (s.length + 1) s i + 1
            else scan_to_nl (s.length + 1) s i)
        have hrec := ih _ (hsk.2 hb2) cs ce b2 h
        have h1 := he.1
        have h2 := hsk.1
        refine ⟨?_, hrec.2.1, hrec.2.2⟩
        have h0 := hrec.1
        have hcd : scan_to_nl (s.length + 1) s i ≤
            (if getC s (scan_to_nl (s.length + 1) s i) = '\n' ∧ clac = true then
              scan_to_nl (s.length + 1) s i + 1
            else scan_to_nl (s.length + 1) s i) := by
          split <;> omega
        omega
    · exact absurd h (by simp)

lemma comments_loop_through_le (s : List Char) (sc clac : Bool) :
    ∀ (fuel i : Nat), i ≤ s.length → ∀ b2,
      comments_loop fuel s sc clac i = cmt_out.through b2 →
      i ≤ b2 ∧ b2 ≤ s.length := by
  intro fuel
  induction fuel with
  | zero =>
    intro i hi b2 h
    simp only [comments_loop, cmt_out.through.injEq] at h
    omega
  | succ fuel ih =>
    intro i hi b2 h
    unfold comments_loop at h
    simp only [] at h
    split at h
    · rename_i hhash
      have he := scan_to_nl_le s (s.length + 1) i
      have heL : scan_to_nl (s.length + 1) s i ≤ s.length := he.2 hi
      have hb2 :
          (if getC s (scan_to_nl (s.length + 1) s i) = '\n' ∧ clac = true then
              scan_to_nl (s.length + 1) s i + 1
            else scan_to_nl (s.length + 1) s i) ≤ s.length := by
        split
        · rename_i hnl
          have : scan_to_nl (s.length + 1) s i < s.length :=
            lt_of_getC_ne s _ (by rw [hnl.1]; decide)
          omega
        · exact heL
      split at h
      · exact absurd h (by simp)
      · have hsk := skip_spaces_le s (s.length + 1)
          (if getC s (scan_to_nl (s.length + 1) s i) = '\n' ∧ clac = true then
              scan_to_nl (s.length + 1) s i + 1
            else scan_to_nl (s.length + 1) s i)
        have hrec := ih _ (hsk.2 hb2) b2 h
        have h1 := he.1
        have h2 := hsk.1
        refine ⟨?_, hrec.2⟩
        have h0 := hrec.1
        have hcd : scan_to_nl (s.length + 1) s i ≤
            (if getC s (scan_to_nl (s.length + 1) s i) = '\n' ∧ clac = true then
              scan_to_nl (s.length + 1) s i + 1
            else scan_to_nl (s.length + 1) s i) := by
          split <;> omega
        omega
    · rw [cmt_out.through.injEq] at h
      omega


lemma rr_m1_le (s : List Char) (pos : Nat) (hp : pos ≤ s.length) :
    pos < (rr_m1 s pos).2.1 ∧
      ((rr_m1 s pos).2.2 = false → (rr_m1 s pos).2.1 ≤ s.length) := by
  have hd := rr_digits_le s (s.length + 1) pos 0
  have hd1 := hd.1
  have hd2 := hd.2 hp
  unfold rr_m1 rr_digits_res
  split
  · rename_i hrc
    have hn : (rr_digits (s.length + 1) s pos 0).1 < s.length := by
      apply lt_of_getC_ne
      rcases hrc with h | ⟨h, _⟩ <;> rw [h] <;> decide
    split
    · rename_i happ
      have hn1 : (rr_digits (s.length + 1) s pos 0).1 + 1 < s.length := by
        apply lt_of_getC_ne
        rw [happ]
        rcases hrc with h | ⟨h, _⟩ <;> rw [h] <;> decide
      exact ⟨by simp; omega, fun _ => by simp; omega⟩
    · exact ⟨by simp; omega, fun _ => by simp; omega⟩
  · split
    · rename_i h hrc
      have hn : (rr_digits (s.length + 1) s pos 0).1 < s.length := by
        apply lt_of_getC_ne
        rw [hrc]
        decide
      exact ⟨by simp; omega, fun _ => by simp; omega⟩
    · exact ⟨by simp; omega, fun h => absurd h (by simp)⟩

lemma rr_le (s : List Char) (pos : Nat) (hp : pos ≤ s.length)
    (h0 : (read_redirection_or_fd_pipe s pos).1 ≠ 0) :
    pos + (read_redirection_or_fd_pipe s pos).1 ≤ s.length := by
  have hm := rr_m1_le s pos hp
  have hmlt := hm.1
  unfold read_redirection_or_fd_pipe at h0 ⊢
  split at h0
  · simp at h0
  · rename_i herr
    rw [if_neg herr]
    push_neg at herr
    have hm22 : (rr_m1 s pos).2.2 = false := by
      have := herr.2
      revert this
      cases (rr_m1 s pos).2.2 <;> simp
    have hmle := hm.2 hm22
    split
    · rename_i hopt
      have : (rr_m1 s pos).2.1 < s.length := lt_of_getC_ne s _ (by rw [hopt]; decide)
      simp
      omega
    · split
      · rename_i hopt
        have : (rr_m1 s pos).2.1 < s.length := lt_of_getC_ne s _ (by rw [hopt]; decide)
        simp
        omega
      · split
        · rename_i hopt
          have : (rr_m1 s pos).2.1 < s.length := lt_of_getC_ne s _ (by rw [hopt]; decide)
          simp
          omega
        · simp
          omega

lemma rr_m1_mode (s : List Char) (pos : Nat) :
    (rr_m1 s pos).1 = TOK_REDIRECT_APPEND ∨ (rr_m1 s pos).1 = TOK_REDIRECT_OUT ∨
      (rr_m1 s pos).1 = TOK_REDIRECT_IN ∨ (rr_m1 s pos).1 = TOK_NONE := by
  unfold rr_m1
  repeat' split
  all_goals simp

/-- The redirection sub-parser only ever reports these token kinds. -/
lemma rr_mode_cases (s : List Char) (pos : Nat) :
    (read_redirection_or_fd_pipe s pos).2.1 = TOK_NONE ∨
    (read_redirection_or_fd_pipe s pos).2.1 = TOK_REDIRECT_OUT ∨
    (read_redirection_or_fd_pipe s pos).2.1 = TOK_REDIRECT_APPEND ∨
    (read_redirection_or_fd_pipe s pos).2.1 = TOK_REDIRECT_IN ∨
    (read_redirection_or_fd_pipe s pos).2.1 = TOK_REDIRECT_FD ∨
    (read_redirection_or_fd_pipe s pos).2.1 = TOK_REDIRECT_NOCLOB ∨
    (read_redirection_or_fd_pipe s pos).2.1 = TOK_PIPE := by
  have hm := rr_m1_mode s pos
  unfold read_redirection_or_fd_pipe
  repeat' split
  all_goals (rcases hm with h | h | h | h <;> simp [h])

lemma quote_end_scan_some (s : List Char) (q : Char) :
    ∀ (fuel i e : Nat), quote_end_scan fuel s q i = some e → i ≤ e ∧ getC s e = q := by
  intro fuel
  induction fuel with
  | zero => intro i e h; exact absurd h (by simp [quote_end_scan])
  | succ fuel ih =>
    intro i e h
    unfold quote_end_scan at h
    split at h
    · exact absurd h (by simp)
    · split at h
      · split at h
        · exact absurd h (by simp)
        · have := ih (i + 2) e h
          exact ⟨by omega, this.2⟩
      · split at h
        · rename_i hq
          rw [Option.some.injEq] at h
          subst h
          exact ⟨Nat.le_refl _, hq⟩
        · have := ih (i + 1) e h
          exact ⟨by omega, this.2⟩

lemma quote_end_some (s : List Char) (pos e : Nat) (h : quote_end s pos = some e) :
    pos < e ∧ getC s e = getC s pos := by
  have := quote_end_scan_some s (getC s pos) (s.length + 1) (pos + 1) e h
  exact ⟨by omega, this.2⟩

lemma wcslen_scan_le (s : List Char) :
    ∀ (fuel i : Nat), i ≤ wcslen_scan fuel s i ∧
      (i ≤ s.length → wcslen_scan fuel s i ≤ s.length) := by
  intro fuel
  induction fuel with
  | zero => intro i; exact ⟨Nat.le_refl _, fun h => h⟩
  | succ fuel ih =>
    intro i
    unfold wcslen_scan
    split
    · exact ⟨Nat.le_refl _, fun h => h⟩
    · rename_i h
      have h1 : i < s.length := lt_of_getC_ne s i h
      have := ih (i + 1)
      exact ⟨by omega, fun _ => this.2 (by omega)⟩

lemma wcslen_from_le (s : List Char) (i : Nat) :
    i ≤ wcslen_from s i ∧ (i ≤ s.length → wcslen_from s i ≤ s.length) :=
  wcslen_scan_le s (s.length + 1) i

/-- Bounds carried by each outcome of one `read_string` iteration. -/
def rs_step_post (s : List Char) (st : rs_state) : rs_state ⊕ rs_out → Prop
  | Sum.inl st' => st.buff < st'.buff ∧ st'.buff ≤ s.length
  | Sum.inr (rs_out.err _ _ eb) => st.buff ≤ eb ∧ eb ≤ s.length
  | Sum.inr (rs_out.done eb _ _ _ _) => st.buff ≤ eb ∧ eb ≤ s.length

lemma rs_step_nul (s : List Char) (au : Bool) (bstart : Nat) (st : rs_state)
    (h : getC s st.buff = '\x00') :
    rs_step s au bstart st =
      Sum.inr (rs_out.done st.buff st.mode st.paran_count st.paran_offsets
        st.offset_of_bracket) := by
  cases hm : st.mode <;>
    simp [rs_step, h, tok_is_string_character, myal, hm]

set_option maxHeartbeats 4000000 in
lemma rs_step_le (s : List Char) (au : Bool) (bstart : Nat) (st : rs_state)
    (hb : st.buff ≤ s.length) :
    rs_step_post s st (rs_step s au bstart st) := by
  by_cases hc : getC s st.buff = '\x00'
  · rw [rs_step_nul s au bstart st hc]
    exact ⟨Nat.le_refl _, hb⟩
  · have hlt : st.buff < s.length := lt_of_getC_ne s st.buff hc
    have hw1 := (wcslen_from_le s st.buff).1
    have hw2 := (wcslen_from_le s st.buff).2 hb
    cases hqq : quote_end s st.buff with
    | some e =>
      have hq1 := quote_end_some s st.buff e hqq
      have he : e < s.length := lt_of_getC_ne s e (by rw [hq1.2]; exact hc)
      have hq2 := hq1.1
      unfold rs_step
      simp only []
      rw [hqq]
      try dsimp only
      repeat' split
      all_goals simp only [rs_step_post]
      all_goals try ((try simp); omega)
      all_goals (rename_i hnx; first | (have h9 : st.buff + 1 < s.length := lt_of_getC_ne s _ hnx; (try simp); omega) | (exact absurd hnx (by simp)))
    | none =>
      unfold rs_step
      simp only []
      rw [hqq]
      try dsimp only
      repeat' split
      all_goals simp only [rs_step_post]
      all_goals try ((try simp); omega)
      all_goals (rename_i hnx; first | (have h9 : st.buff + 1 < s.length := lt_of_getC_ne s _ hnx; (try simp); omega) | (exact absurd hnx (by simp)))

lemma rs_loop_le (s : List Char) (au : Bool) (bstart : Nat) :
    ∀ (fuel : Nat) (st : rs_state), st.buff ≤ s.length →
      (∀ e loc eb, rs_loop fuel s au bstart st = rs_out.err e loc eb →
        st.buff ≤ eb ∧ eb ≤ s.length) ∧
      (∀ eb m pc po ob, rs_loop fuel s au bstart st = rs_out.done eb m pc po ob →
        st.buff ≤ eb ∧ eb ≤ s.length) := by
  intro fuel
  induction fuel with
  | zero =>
    intro st hb
    constructor
    · intro e loc eb h
      exact absurd h (by simp [rs_loop])
    · intro eb m pc po ob h
      simp only [rs_loop, rs_out.done.injEq] at h
      omega
  | succ fuel ih =>
    intro st hb
    have hpost := rs_step_le s au bstart st hb
    constructor
    · intro e loc eb h
      unfold rs_loop at h
      split at h
      · rename_i st' hstep
        rw [hstep] at hpost
        simp only [rs_step_post] at hpost
        have := (ih st' (by omega)).1 e loc eb h
        omega
      · rename_i out hstep
        rw [hstep] at hpost
        rw [h] at hpost
        simp only [rs_step_post] at hpost
        exact hpost
    · intro eb m pc po ob h
      unfold rs_loop at h
      split at h
      · rename_i st' hstep
        rw [hstep] at hpost
        simp only [rs_step_post] at hpost
        have := (ih st' (by omega)).2 eb m pc po ob h
        omega
      · rename_i out hstep
        rw [hstep] at hpost
        rw [h] at hpost
        simp only [rs_step_post] at hpost
        exact hpost

lemma read_string_le (s : List Char) (au : Bool) (bstart : Nat) (hb : bstart ≤ s.length) :
    (∀ eb, read_string s au bstart = rs_result.str eb → bstart ≤ eb ∧ eb ≤ s.length) ∧
    (∀ e loc eb, read_string s au bstart = rs_result.err e loc eb →
      bstart ≤ eb ∧ eb ≤ s.length) := by
  have hl := rs_loop_le s au bstart (s.length + 1) (rs_init bstart) (by simp [rs_init]; omega)
  constructor
  · intro eb h
    unfold read_string at h
    split at h
    · exact absurd h (by simp)
    · rename_i endB m pc po ob hdone
      have hd := hl.2 endB m pc po ob hdone
      simp only [rs_init] at hd
      split at h
      · rw [rs_result.str.injEq] at h
        omega
      · split at h
        · rw [rs_result.str.injEq] at h
          omega
        all_goals exact absurd h (by simp)
  · intro e loc eb h
    unfold read_string at h
    split at h
    · rename_i e' loc' endB herr
      rw [rs_result.err.injEq] at h
      have hd := hl.1 e' loc' endB herr
      simp only [rs_init] at hd
      omega
    · rename_i endB m pc po ob hdone
      have hd := hl.2 endB m pc po ob hdone
      simp only [rs_init] at hd
      split at h
      · exact absurd h (by simp)
      · split at h
        · exact absurd h (by simp)
        all_goals (rw [rs_result.err.injEq] at h; omega)

section WordMotion

variable (f : Char → Nat → Bool × Nat)

lemma consume_trace_cons (c : Char) (cs : List Char) (st : Nat) :
    consume_trace f st (c :: cs) = f c st :: consume_trace f (f c st).2 cs := rfl

lemma trace_dead : ∀ (cs : List Char) (st : Nat), (∀ c, f c st = (false, st)) →
    ∀ j, j < (consume_trace f st cs).length →
      (consume_trace f st cs).getD j (false, 0) = (false, st) := by
  intro cs
  induction cs with
  | nil => intro st _ j hj; simp [consume_trace] at hj
  | cons c cs ih =>
    intro st hdead j hj
    rw [consume_trace_cons] at hj ⊢
    cases j with
    | zero => simpa using hdead c
    | succ j =>
      simp only [List.getD_cons_succ]
      have h2 : (f c st).2 = st := by rw [hdead c]
      refine (ih (f c st).2 ?_ j ?_).trans ?_
      · intro c'; rw [h2]; exact hdead c'
      · simpa using hj
      · rw [h2]

lemma trace_ge (hm : ∀ c st, st ≤ (f c st).2) :
    ∀ (cs : List Char) (st : Nat) (j : Nat), j < (consume_trace f st cs).length →
      st ≤ ((consume_trace f st cs).getD j (false, 0)).2 := by
  intro cs
  induction cs with
  | nil => intro st j hj; simp [consume_trace] at hj
  | cons c cs ih =>
    intro st j hj
    rw [consume_trace_cons] at hj ⊢
    cases j with
    | zero => simpa using hm c st
    | succ j =>
      simp only [List.getD_cons_succ]
      exact (hm c st).trans (ih (f c st).2 j (by simpa using hj))

lemma trace_ok_of_step (hm : ∀ c st, st ≤ (f c st).2)
    (ha : ∀ c st, (f c st).1 = false → ∀ c', f c' (f c st).2 = (false, (f c st).2)) :
    trace_ok f := by
  intro cs
  induction cs with
  | nil => intro st i j _ hj; simp [consume_trace] at hj
  | cons c cs ih =>
    intro st i j hij hj
    rw [consume_trace_cons] at hj ⊢
    cases i with
    | zero =>
      cases j with
      | zero => simp
      | succ j =>
        simp only [List.getD_cons_zero, List.getD_cons_succ]
        constructor
        · exact trace_ge f hm cs (f c st).2 j (by simpa using hj)
        · intro hfalse
          have := trace_dead f cs (f c st).2 (ha c st hfalse) j (by simpa using hj)
          rw [this]
    | succ i =>
      cases j with
      | zero => omega
      | succ j =>
        simp only [List.getD_cons_succ]
        exact ih (f c st).2 i j (by omega) (by simpa using hj)

lemma consume_loop_fix (step : Nat → Bool × Nat) (e : Nat) (st : Nat)
    (h : step st = (false, st)) :
    ∀ fuel, consume_loop step e fuel st = (false, st) := by
  intro fuel
  induction fuel with
  | zero => rfl
  | succ fuel ih =>
    by_cases he : st = e <;> simp [consume_loop, he, h, ih]

end WordMotion

lemma punct_step_big (c : Char) (st : Nat) : punct_step c (st + 3) = (false, st + 3) := by
  unfold punct_step
  rw [if_neg (by omega), if_neg (by omega), if_neg (by omega)]

lemma punct_big (c : Char) (st : Nat) :
    consume_char_punctuation c (st + 3) = (false, st + 3) :=
  consume_loop_fix (punct_step c) 3 (st + 3) (punct_step_big c st) 4

lemma punct_mono : ∀ (c : Char) (st : Nat), st ≤ (consume_char_punctuation c st).2 := by
  intro c st
  rcases st with _ | _ | _ | st
  · cases h1 : iswspace c <;> cases h2 : iswalnum c <;>
      simp [consume_char_punctuation, consume_loop, punct_step, h1, h2]
  · cases h1 : iswspace c <;> cases h2 : iswalnum c <;>
      simp [consume_char_punctuation, consume_loop, punct_step, h1, h2]
  · cases h1 : iswspace c <;> cases h2 : iswalnum c <;>
      simp [consume_char_punctuation, consume_loop, punct_step, h1, h2]
  · rw [punct_big]

lemma punct_absorb : ∀ (c : Char) (st : Nat), (consume_char_punctuation c st).1 = false →
    ∀ c', consume_char_punctuation c' (consume_char_punctuation c st).2 =
      (false, (consume_char_punctuation c st).2) := by
  intro c st hf c'
  rcases st with _ | _ | _ | st
  · cases h1 : iswspace c <;> cases h2 : iswalnum c <;>
      simp [consume_char_punctuation, consume_loop, punct_step, h1, h2] at hf ⊢
  · cases h1 : iswspace c <;> cases h2 : iswalnum c <;>
      simp [consume_char_punctuation, consume_loop, punct_step, h1, h2] at hf ⊢
  · cases h1 : iswspace c <;> cases h2 : iswalnum c <;>
      simp [consume_char_punctuation, consume_loop, punct_step, h1, h2] at hf ⊢
  · rw [punct_big] at hf ⊢
    exact punct_big c' st

lemma ws_step_big (c : Char) (st : Nat) : ws_step c (st + 3) = (false, st + 3) := by
  unfold ws_step
  rw [if_neg (by omega), if_neg (by omega), if_neg (by omega)]

lemma ws_big (c : Char) (st : Nat) :
    consume_char_whitespace c (st + 3) = (false, st + 3) :=
  consume_loop_fix (ws_step c) 3 (st + 3) (ws_step_big c st) 4

lemma ws_mono : ∀ (c : Char) (st : Nat), st ≤ (consume_char_whitespace c st).2 := by
  intro c st
  rcases st with _ | _ | _ | st
  · cases h1 : iswblank c <;> cases h2 : iswgraph c <;>
      simp [consume_char_whitespace, consume_loop, ws_step, h1, h2]
  · cases h1 : iswblank c <;> cases h2 : iswgraph c <;>
      simp [consume_char_whitespace, consume_loop, ws_step, h1, h2]
  · cases h1 : iswblank c <;> cases h2 : iswgraph c <;>
      simp [consume_char_whitespace, consume_loop, ws_step, h1, h2]
  · rw [ws_big]

lemma ws_absorb : ∀ (c : Char) (st : Nat), (consume_char_whitespace c st).1 = false →
    ∀ c', consume_char_whitespace c' (consume_char_whitespace c st).2 =
      (false, (consume_char_whitespace c st).2) := by
  intro c st hf c'
  rcases st with _ | _ | _ | st
  · cases h1 : iswblank c <;> cases h2 : iswgraph c <;>
      simp [consume_char_whitespace, consume_loop, ws_step, h1, h2] at hf ⊢
  · cases h1 : iswblank c <;> cases h2 : iswgraph c <;>
      simp [consume_char_whitespace, consume_loop, ws_step, h1, h2] at hf ⊢
  · cases h1 : iswblank c <;> cases h2 : iswgraph c <;>
      simp [consume_char_whitespace, consume_loop, ws_step, h1, h2] at hf ⊢
  · rw [ws_big] at hf ⊢
    exact ws_big c' st

lemma path_step_big (c : Char) (st : Nat) : path_step c (st + 5) = (false, st + 5) := by
  unfold path_step
  rw [if_neg (by omega), if_neg (by omega), if_neg (by omega), if_neg (by omega),
    if_neg (by omega)]

lemma path_big (c : Char) (st : Nat) :
    consume_char_path_components c (st + 5) = (false, st + 5) :=
  consume_loop_fix (path_step c) 5 (st + 5) (path_step_big c st) 6

lemma path_mono : ∀ (c : Char) (st : Nat), st ≤ (consume_char_path_components c st).2 := by
  intro c st
  rcases st with _ | _ | _ | _ | _ | st
  · by_cases h3 : c = '/'
    · subst h3; decide
    · cases h1 : iswspace c <;> cases h2 : is_path_component_character c <;>
        simp [consume_char_path_components, consume_loop, path_step, h1, h2, h3]
  · by_cases h3 : c = '/'
    · subst h3; decide
    · cases h1 : iswspace c <;> cases h2 : is_path_component_character c <;>
        simp [consume_char_path_components, consume_loop, path_step, h1, h2, h3]
  · by_cases h3 : c = '/'
    · subst h3; decide
    · cases h1 : iswspace c <;> cases h2 : is_path_component_character c <;>
        simp [consume_char_path_components, consume_loop, path_step, h1, h2, h3]
  · by_cases h3 : c = '/'
    · subst h3; decide
    · cases h1 : iswspace c <;> cases h2 : is_path_component_character c <;>
        simp [consume_char_path_components, consume_loop, path_step, h1, h2, h3]
  · by_cases h3 : c = '/'
    · subst h3; decide
    · cases h1 : iswspace c <;> cases h2 : is_path_component_character c <;>
        simp [consume_char_path_components, consume_loop, path_step, h1, h2, h3]
  · rw [path_big]

lemma path_absorb : ∀ (c : Char) (st : Nat), (consume_char_path_components c st).1 = false →
    ∀ c', consume_char_path_components c' (consume_char_path_components c st).2 =
      (false, (consume_char_path_components c st).2) := by
  intro c st hf c'
  rcases st with _ | _ | _ | _ | _ | st
  · by_cases h3 : c = '/'
    · subst h3; exact absurd hf (by decide)
    · cases h1 : iswspace c <;> cases h2 : is_path_component_character c <;>
        simp [consume_char_path_components, consume_loop, path_step, h1, h2, h3] at hf ⊢
  · by_cases h3 : c = '/'
    · subst h3; exact absurd hf (by decide)
    · cases h1 : iswspace c <;> cases h2 : is_path_component_character c <;>
        simp [consume_char_path_components, consume_loop, path_step, h1, h2, h3] at hf ⊢
  · by_cases h3 : c = '/'
    · subst h3; exact absurd hf (by decide)
    · cases h1 : iswspace c <;> cases h2 : is_path_component_character c <;>
        simp [consume_char_path_components, consume_loop, path_step, h1, h2, h3] at hf ⊢
  · by_cases h3 : c = '/'
    · subst h3; exact absurd hf (by decide)
    · cases h1 : iswspace c <;> cases h2 : is_path_component_character c <;>
        simp [consume_char_path_components, consume_loop, path_step, h1, h2, h3] at hf ⊢
  · by_cases h3 : c = '/'
    · subst h3; exact path_big c' 0
    · cases h1 : iswspace c <;> cases h2 : is_path_component_character c <;>
        simp [consume_char_path_components, consume_loop, path_step, h1, h2, h3] at hf ⊢
  · rw [path_big] at hf ⊢
    exact path_big c' st

/-- C9: for each of the three word-motion automata (punctuation, path
components, whitespace), over any sequence of consume calls without a reset,
the internal state never moves backward, and once a call returns false every
subsequent call also returns false. -/
theorem C9_word_motion :
    trace_ok consume_char_punctuation ∧ trace_ok consume_char_path_components ∧
      trace_ok consume_char_whitespace :=
  ⟨trace_ok_of_step _ punct_mono punct_absorb,
   trace_ok_of_step _ path_mono path_absorb,
   trace_ok_of_step _ ws_mono ws_absorb⟩

/-- C9 witness: the punctuation automaton on the concrete run `"a b"` from
state 0, comparing positions 0 and 2 of the trace. -/
theorem C9_word_motion_witness :
    ((consume_trace consume_char_punctuation 0 ("a b".toList)).getD 0 (false, 0)).2 ≤
        ((consume_trace consume_char_punctuation 0 ("a b".toList)).getD 2 (false, 0)).2 ∧
      (((consume_trace consume_char_punctuation 0 ("a b".toList)).getD 0 (false, 0)).1 = false →
        ((consume_trace consume_char_punctuation 0 ("a b".toList)).getD 2 (false, 0)).1 = false) :=
  C9_word_motion.1 ("a b".toList) 0 0 2 (by decide) (by decide)

/-- What one successful `tok_next` call guarantees about the updated state
`u`: the source and flags are unchanged, the cursor stays within the source,
the token starts at or before the cursor, and the scratch text is determined
by the token kind (the exact source slice for strings; a prefix slice for
comments; the single terminator character for `End`; for pipes and
redirections the decimal rendering of the fd resolved by the redirection
sub-parser at the token's start, except a bare `|`, whose text is `1`; the
untouched previous scratch for `Background`; the
canonical, or squashed, message for errors, which also stop the stream). -/
def tok_next_post (t : tokenizer_t) (b : Bool) (u : tokenizer_t) : Prop :=
  u.s = t.s ∧ u.squash_errors = t.squash_errors ∧ u.buff ≤ t.s.length ∧
  (b = true →
    u.last_pos ≤ u.buff ∧
    (u.last_type = TOK_STRING → u.last_token = sliceCh t.s u.last_pos u.buff) ∧
    (u.last_type = TOK_COMMENT →
      ∃ ce, u.last_pos ≤ ce ∧ ce ≤ u.buff ∧ u.last_token = sliceCh t.s u.last_pos ce) ∧
    (u.last_type = TOK_END → u.last_token = [getC t.s u.last_pos] ∧ u.last_pos < u.buff) ∧
    (u.last_type = TOK_PIPE ∨ u.last_type = TOK_REDIRECT_OUT ∨
        u.last_type = TOK_REDIRECT_APPEND ∨ u.last_type = TOK_REDIRECT_IN ∨
        u.last_type = TOK_REDIRECT_FD ∨ u.last_type = TOK_REDIRECT_NOCLOB →
      u.last_token = to_string (read_redirection_or_fd_pipe t.s u.last_pos).2.2 ∨
      (getC t.s u.last_pos = '|' ∧ u.last_token = to_string 1)) ∧
    (u.last_type = TOK_BACKGROUND → u.last_token = t.last_token) ∧
    (u.last_type = TOK_ERROR →
      u.last_token = (if t.squash_errors then [] else canonical_message u.error) ∧
      u.has_next = false))

set_option maxHeartbeats 4000000 in
lemma tok_next_spec (t : tokenizer_t) (hb : t.buff ≤ t.s.length) :
    tok_next_post t (tok_next t).1 (tok_next t).2 := by
  unfold tok_next
  simp only []
  split
  · exact ⟨rfl, rfl, hb, by simp⟩
  · rename_i hhn
    have hws := skip_ws_le t.s (t.s.length + 1) t.buff t.continue_line_after_comment
    have hwsL := hws.2 hb
    cases hcm : comments_loop (t.s.length + 1) t.s t.show_comments
        (skip_ws (t.s.length + 1) t.s t.buff t.continue_line_after_comment).2
        (skip_ws (t.s.length + 1) t.s t.buff t.continue_line_after_comment).1 with
    | comment cs ce b2 =>
      dsimp only
      have hcb := comments_loop_comment_le t.s t.show_comments
        (skip_ws (t.s.length + 1) t.s t.buff t.continue_line_after_comment).2
        (t.s.length + 1) _ hwsL cs ce b2 hcm
      refine ⟨rfl, rfl, by (try simp) <;> omega, ?_⟩
      intro _
      refine ⟨by (try simp) <;> omega, by simp, ?_, by simp, by simp, by simp, by simp⟩
      intro _
      exact ⟨ce, by (try simp) <;> omega, by (try simp) <;> omega, rfl⟩
    | through b2 =>
      dsimp only
      have hcb := comments_loop_through_le t.s t.show_comments
        (skip_ws (t.s.length + 1) t.s t.buff t.continue_line_after_comment).2
        (t.s.length + 1) _ hwsL b2 hcm
      -- dispatch on the current character
      split
      · -- NUL: End, return false
        exact ⟨rfl, rfl, by simp; omega, by simp⟩
      · split
        · -- '\r' | '\n' | ';' : End token, newline compression
          dsimp only
          have hb2 : b2 < t.s.length := lt_of_getC_ne t.s b2
            (by rename_i hcr; rcases hcr with h | h | h <;> rw [h] <;> decide)
          have hsw := swallow_blanks_le t.s (t.s.length + 1) (b2 + 1)
          have hswL : swallow_blanks (t.s.length + 1) t.s (b2 + 1) ≤ t.s.length :=
            hsw.2 (by omega)
          have hsw1 := hsw.1
          refine ⟨rfl, rfl, ?_, ?_⟩
          · split <;> ((try simp) <;> omega)
          intro _
          refine ⟨?_, by simp, by simp, ?_, by simp, by simp, by simp⟩
          · split <;> ((try simp) <;> omega)
          · intro _
            refine ⟨by simp, ?_⟩
            split <;> ((try simp) <;> omega)
        · split
          · -- '&': Background
            dsimp only
            have hb2 : b2 < t.s.length :=
              lt_of_getC_ne t.s b2 (by rename_i hamp; rw [hamp]; decide)
            refine ⟨rfl, rfl, by (try simp) <;> omega, ?_⟩
            intro _
            exact ⟨by (try simp) <;> omega, by simp, by simp, by simp, by simp, by simp, by simp⟩
          · split
            · -- '|': Pipe with text "1"
              dsimp only
              rename_i hpip
              have hb2 : b2 < t.s.length :=
                lt_of_getC_ne t.s b2 (by rw [hpip]; decide)
              refine ⟨rfl, rfl, by (try simp) <;> omega, ?_⟩
              intro _
              refine ⟨by (try simp) <;> omega, by simp, by simp, by simp, ?_, by simp, by simp⟩
              intro _
              exact Or.inr ⟨by simpa using hpip, by simp [to_string]; decide⟩
            · split
              · -- '>' | '<' | '^': must be a redirection
                split
                · -- invalid: call_error
                  try dsimp only
                  refine ⟨rfl, rfl, by (try simp [call_error]) <;> omega, ?_⟩
                  intro _
                  refine ⟨by simp [call_error], by simp [call_error], by simp [call_error],
                    by simp [call_error], by simp [call_error], by simp [call_error], ?_⟩
                  intro _
                  exact ⟨by simp [call_error], by simp [call_error]⟩
                · -- valid redirection or pipe
                  rename_i hcons
                  push_neg at hcons
                  have hrr := rr_le t.s b2 hcb.2 hcons.1
                  try dsimp only
                  refine ⟨rfl, rfl, by (try simp) <;> omega, ?_⟩
                  intro _
                  refine ⟨by (try simp) <;> omega, ?_, ?_, ?_, ?_, ?_, ?_⟩
                  all_goals intro hty
                  all_goals simp only at hty ⊢
                  · rcases rr_mode_cases t.s b2 with h | h | h | h | h | h | h <;> simp_all
                  · rcases rr_mode_cases t.s b2 with h | h | h | h | h | h | h <;> simp_all
                  · rcases rr_mode_cases t.s b2 with h | h | h | h | h | h | h <;> simp_all
                  · exact Or.inl (by simp)
                  · rcases rr_mode_cases t.s b2 with h | h | h | h | h | h | h <;> simp_all
                  · rcases rr_mode_cases t.s b2 with h | h | h | h | h | h | h <;> simp_all
              · -- default: digits then redirection/pipe, else a string
                by_cases hdig : iswdigit (getC t.s b2)
                · simp only [hdig, if_true]
                  split
                  · -- consumed > 0
                    rename_i hconsumed
                    have hrrpos : (read_redirection_or_fd_pipe t.s b2).1 ≠ 0 := by omega
                    have hrr := rr_le t.s b2 hcb.2 hrrpos
                    split
                    · -- InvalidPipe
                      try dsimp only
                      refine ⟨rfl, rfl, by (try simp [call_error]) <;> omega, ?_⟩
                      intro _
                      refine ⟨by simp [call_error], by simp [call_error], by simp [call_error],
                        by simp [call_error], by simp [call_error], by simp [call_error], ?_⟩
                      intro _
                      exact ⟨by simp [call_error], by simp [call_error]⟩
                    · try dsimp only
                      refine ⟨rfl, rfl, by (try simp) <;> omega, ?_⟩
                      intro _
                      refine ⟨by (try simp) <;> omega, ?_, ?_, ?_, ?_, ?_, ?_⟩
                      all_goals intro hty
                      all_goals simp only at hty ⊢
                      · rcases rr_mode_cases t.s b2 with h | h | h | h | h | h | h <;> simp_all
                      · rcases rr_mode_cases t.s b2 with h | h | h | h | h | h | h <;> simp_all
                      · rcases rr_mode_cases t.s b2 with h | h | h | h | h | h | h <;> simp_all
                      · exact Or.inl (by simp)
                      · rcases rr_mode_cases t.s b2 with h | h | h | h | h | h | h <;> simp_all
                      · rcases rr_mode_cases t.s b2 with h | h | h | h | h | h | h <;> simp_all
                  · -- digits but not a redirection: string scanner
                    cases hrs : read_string t.s t.accept_unfinished b2 with
                    | str e =>
                      dsimp only
                      have hse := (read_string_le t.s t.accept_unfinished b2 hcb.2).1 e hrs
                      refine ⟨rfl, rfl, by (try simp) <;> omega, ?_⟩
                      intro _
                      refine ⟨by (try simp) <;> omega, ?_, by simp, by simp, by simp, by simp,
                        by simp⟩
                      intro _
                      rfl
                    | err er loc e =>
                      dsimp only
                      have hse := (read_string_le t.s t.accept_unfinished b2 hcb.2).2 er loc e hrs
                      refine ⟨rfl, rfl, by (try simp [call_error]) <;> omega, ?_⟩
                      intro _
                      refine ⟨by (try simp [call_error]) <;> omega, by simp [call_error],
                        by simp [call_error], by simp [call_error], by simp [call_error],
                        by simp [call_error], ?_⟩
                      intro _
                      exact ⟨by simp [call_error], by simp [call_error]⟩
                · -- no digits: always the string scanner
                  have hdigf : iswdigit (getC t.s b2) = false := by
                    revert hdig
                    cases iswdigit (getC t.s b2) <;> simp
                  simp only [hdigf, Bool.false_eq_true, if_false]
                  rw [if_neg (by omega : ¬((0 : Nat) > 0))]
                  cases hrs : read_string t.s t.accept_unfinished b2 with
                  | str e =>
                    dsimp only
                    have hse := (read_string_le t.s t.accept_unfinished b2 hcb.2).1 e hrs
                    refine ⟨rfl, rfl, by (try simp) <;> omega, ?_⟩
                    intro _
                    refine ⟨by (try simp) <;> omega, ?_, by simp, by simp, by simp, by simp,
                      by simp⟩
                    intro _
                    rfl
                  | err er loc e =>
                    dsimp only
                    have hse := (read_string_le t.s t.accept_unfinished b2 hcb.2).2 er loc e hrs
                    refine ⟨rfl, rfl, by (try simp [call_error]) <;> omega, ?_⟩
                    intro _
                    refine ⟨by (try simp [call_error]) <;> omega, by simp [call_error],
                      by simp [call_error], by simp [call_error], by simp [call_error],
                      by simp [call_error], ?_⟩
                    intro _
                    exact ⟨by simp [call_error], by simp [call_error]⟩

lemma next_some (t : tokenizer_t) (tok : tok_t) (t' : tokenizer_t)
    (h : next t = some (tok, t')) :
    (tok_next t).1 = true ∧ t' = (tok_next t).2 ∧ tok = mk_tok (tok_next t).2 := by
  unfold next at h
  split at h
  · simp at h
  · rename_i hcond
    simp only [Option.some.injEq, Prod.mk.injEq] at h
    refine ⟨?_, h.2.symm, h.1.symm⟩
    revert hcond
    cases (tok_next t).1 <;> simp

lemma tok_next_false_of_not_has_next (t : tokenizer_t) (h : t.has_next = false) :
    tok_next t = (false, t) := by
  unfold tok_next
  rw [if_pos h]

lemma sliceCh_append (s : List Char) (a b c : Nat) (hab : a ≤ b) (hbc : b ≤ c) :
    sliceCh s a b ++ sliceCh s b c = sliceCh s a c := by
  unfold sliceCh
  have hd : s.drop b = (s.drop a).drop (b - a) := by
    rw [List.drop_drop]
    congr 1
    omega
  rw [hd, ← List.take_add]
  congr 1
  omega

lemma sliceCh_prefix (s : List Char) (a b c : Nat) (hab : a ≤ b) (hbc : b ≤ c) :
    sliceCh s a b <+: sliceCh s a c :=
  ⟨sliceCh s b c, sliceCh_append s a b c hab hbc⟩

lemma drop_eq_getC_cons (s : List Char) (i : Nat) (h : i < s.length) :
    s.drop i = getC s i :: s.drop (i + 1) := by
  unfold getC
  rw [List.getD_eq_getElem s ' ' h]
  exact List.drop_eq_getElem_cons h

lemma single_prefix_sliceCh (s : List Char) (a b : Nat) (ha : a < s.length) (hb : a < b) :
    [getC s a] <+: sliceCh s a b := by
  unfold sliceCh
  rw [drop_eq_getC_cons s a ha]
  have : b - a = (b - a - 1) + 1 := by omega
  rw [this, List.take_succ_cons]
  exact ⟨(s.drop (a + 1)).take (b - a - 1), rfl⟩

/-- C1 (amended): for every token emitted by a successful `next` call,
`offset + length` never exceeds the source length; a `String` token's text is
exactly the source slice `[offset, offset+length)`; `Comment` and `End` texts
are prefixes of that slice (the collapsed blank run after a terminator, or the
swallowed newline after a continued comment, may extend `length` past the
text); an `End` text is the single terminator character at `offset`; a `Pipe`
or `Redirect` token's text is the decimal rendering of the fd resolved by the
redirection sub-parser at the token's `offset`, except a bare `|` (a `|` at
`offset`), whose text is `"1"`;
a `Background` token carries the stale scratch buffer of the previous token;
an `Error` token carries the canonical message of its error kind (empty under
`squash_errors`).  The cursor invariant is preserved. -/
theorem C1_token_text (t : tokenizer_t) (tok : tok_t) (t' : tokenizer_t)
    (hnul : noNul t.s) (hbuf : t.buff ≤ t.s.length) (h : next t = some (tok, t')) :
    tok.offset + tok.length ≤ t.s.length ∧
    (tok.type = TOK_STRING → tok.text = sliceCh t.s tok.offset (tok.offset + tok.length)) ∧
    (tok.type = TOK_COMMENT → tok.text <+: sliceCh t.s tok.offset (tok.offset + tok.length)) ∧
    (tok.type = TOK_END → tok.text = [getC t.s tok.offset] ∧
      tok.text <+: sliceCh t.s tok.offset (tok.offset + tok.length)) ∧
    (tok.type = TOK_PIPE ∨ tok.type = TOK_REDIRECT_OUT ∨ tok.type = TOK_REDIRECT_APPEND ∨
        tok.type = TOK_REDIRECT_IN ∨ tok.type = TOK_REDIRECT_FD ∨
        tok.type = TOK_REDIRECT_NOCLOB →
      tok.text = to_string (read_redirection_or_fd_pipe t.s tok.offset).2.2 ∨
      (getC t.s tok.offset = '|' ∧ tok.text = to_string 1)) ∧
    (tok.type = TOK_BACKGROUND → tok.text = t.last_token) ∧
    (tok.type = TOK_ERROR →
      tok.text = if t.squash_errors then [] else canonical_message tok.error) ∧
    (noNul t'.s ∧ t'.buff ≤ t'.s.length) := by
  obtain ⟨hb1, ht', htok⟩ := next_some t tok t' h
  have hspec := tok_next_spec t hbuf
  obtain ⟨hs, hsq, hbuf', hrest⟩ := hspec
  obtain ⟨hlp, hstr, hcmt, hend, hfd, hbg, herr⟩ := hrest hb1
  subst htok
  subst ht'
  have hoff : (mk_tok (tok_next t).2).offset = (tok_next t).2.last_pos := rfl
  have hlen : (mk_tok (tok_next t).2).length =
      (tok_next t).2.buff - (tok_next t).2.last_pos := by
    unfold mk_tok
    simp only
    rw [if_pos hlp]
  have hsum : (mk_tok (tok_next t).2).offset + (mk_tok (tok_next t).2).length =
      (tok_next t).2.buff := by
    rw [hoff, hlen]
    omega
  have htext : (mk_tok (tok_next t).2).text = (tok_next t).2.last_token := rfl
  have htype : (mk_tok (tok_next t).2).type = (tok_next t).2.last_type := rfl
  refine ⟨?_, ?_, ?_, ?_, ?_, ?_, ?_, ?_⟩
  · rw [hsum]
    exact hbuf'
  · intro hty
    rw [htype] at hty
    rw [htext, hsum, hoff]
    exact hstr hty
  · intro hty
    rw [htype] at hty
    obtain ⟨ce, h1, h2, h3⟩ := hcmt hty
    rw [htext, hsum, hoff, h3]
    exact sliceCh_prefix t.s (tok_next t).2.last_pos ce (tok_next t).2.buff h1 h2
  · intro hty
    rw [htype] at hty
    obtain ⟨h1, h2⟩ := hend hty
    rw [htext, hsum, hoff, h1]
    refine ⟨rfl, ?_⟩
    exact single_prefix_sliceCh t.s (tok_next t).2.last_pos (tok_next t).2.buff
      (by omega) h2
  · intro hty
    rw [htype] at hty
    rw [htext, hoff]
    exact hfd hty
  · intro hty
    rw [htype] at hty
    rw [htext]
    exact hbg hty
  · intro hty
    rw [htype] at hty
    have he : (mk_tok (tok_next t).2).error = (tok_next t).2.error := by
      unfold mk_tok
      simp only
      rw [if_pos hty]
    rw [htext, he]
    exact (herr hty).1
  · rw [hs]
    exact ⟨hnul, hbuf'⟩

/-- C1 witness: the amended statement instantiated on the input `ab`. -/
theorem C1_token_text_witness :
    ((next (tokenizer_make ("ab".toList) false false false false)).getD
        (tok_dummy, tokenizer_make ("ab".toList) false false false false)).1.text =
      sliceCh ("ab".toList)
        ((next (tokenizer_make ("ab".toList) false false false false)).getD
          (tok_dummy, tokenizer_make ("ab".toList) false false false false)).1.offset
        (((next (tokenizer_make ("ab".toList) false false false false)).getD
            (tok_dummy, tokenizer_make ("ab".toList) false false false false)).1.offset +
          ((next (tokenizer_make ("ab".toList) false false false false)).getD
            (tok_dummy, tokenizer_make ("ab".toList) false false false false)).1.length) :=
  (C1_token_text (tokenizer_make ("ab".toList) false false false false)
    ((next (tokenizer_make ("ab".toList) false false false false)).getD
      (tok_dummy, tokenizer_make ("ab".toList) false false false false)).1
    ((next (tokenizer_make ("ab".toList) false false false false)).getD
      (tok_dummy, tokenizer_make ("ab".toList) false false false false)).2
    (by decide) (by decide) (by decide)).2.1 (by decide)

/-- C2: once an `Error` token has been emitted the tokenizer's `has_next` flag
is false, and once `has_next` is false every `next` call returns "no more
tokens" and leaves the state unchanged (so no further token is ever produced). -/
theorem C2_error_stops (t : tokenizer_t) (tok : tok_t) (t' : tokenizer_t) :
    (t.buff ≤ t.s.length → next t = some (tok, t') → tok.type = TOK_ERROR →
      t'.has_next = false) ∧
    (t.has_next = false → next t = none ∧ tok_next t = (false, t)) := by
  constructor
  · intro hbuf h hty
    obtain ⟨hb1, ht', htok⟩ := next_some t tok t' h
    have hspec := tok_next_spec t hbuf
    obtain ⟨_, _, _, hrest⟩ := hspec
    obtain ⟨_, _, _, _, _, _, herr⟩ := hrest hb1
    subst htok
    subst ht'
    exact (herr hty).2
  · intro hhn
    have hf := tok_next_false_of_not_has_next t hhn
    constructor
    · simp [next, hf]
    · exact hf

/-- C2 witness: on `0>|` the first call emits an `InvalidPipe` error and the
stream is finished; a `next` on the stopped state returns none. -/
theorem C2_error_stops_witness :
    ((next (tokenizer_make ("0>|".toList) false false false false)).getD
        (tok_dummy, tokenizer_make ("0>|".toList) false false false false)).2.has_next =
      false ∧
    next ((next (tokenizer_make ("0>|".toList) false false false false)).getD
        (tok_dummy, tokenizer_make ("0>|".toList) false false false false)).2 = none := by
  constructor
  · exact (C2_error_stops (tokenizer_make ("0>|".toList) false false false false)
      ((next (tokenizer_make ("0>|".toList) false false false false)).getD
        (tok_dummy, tokenizer_make ("0>|".toList) false false false false)).1
      ((next (tokenizer_make ("0>|".toList) false false false false)).getD
        (tok_dummy, tokenizer_make ("0>|".toList) false false false false)).2).1
      (by decide) (by decide) (by decide)
  · exact ((C2_error_stops ((next (tokenizer_make ("0>|".toList) false false false false)).getD
        (tok_dummy, tokenizer_make ("0>|".toList) false false false false)).2
      tok_dummy (tokenizer_make ("0>|".toList) false false false false)).2
      (by decide)).1

/-- C5 (amended): a `Background` token's text is whatever the scratch buffer
held before the call (the `&` case of `tok_next` never assigns the token
text); a fresh tokenizer starts with an empty scratch buffer, so only a
`Background` token emitted before any text-setting token has empty text. -/
theorem C5_background_stale (t : tokenizer_t) (tok : tok_t) (t' : tokenizer_t) :
    (t.buff ≤ t.s.length → next t = some (tok, t') → tok.type = TOK_BACKGROUND →
      tok.text = t.last_token) ∧
    (∀ (s : List Char) (au sc sq sb : Bool),
      (tokenizer_make s au sc sq sb).last_token = ([] : List Char)) := by
  constructor
  · intro hbuf h hty
    obtain ⟨hb1, ht', htok⟩ := next_some t tok t' h
    have hspec := tok_next_spec t hbuf
    obtain ⟨_, _, _, hrest⟩ := hspec
    obtain ⟨_, _, _, _, _, hbg, _⟩ := hrest hb1
    subst htok
    exact hbg hty
  · intro s au sc sq sb
    rfl

/-- C5 witness: on a bare `&` the Background token does have empty text, since
the scratch buffer of a fresh tokenizer is empty. -/
theorem C5_background_stale_witness :
    ((next (tokenizer_make ("&x".toList) false false false false)).getD
        (tok_dummy, tokenizer_make ("&x".toList) false false false false)).1.text =
      (tokenizer_make ("&x".toList) false false false false).last_token ∧
    (tokenizer_make ("&x".toList) false false false false).last_token = ([] : List Char) := by
  constructor
  · exact (C5_background_stale (tokenizer_make ("&x".toList) false false false false)
      ((next (tokenizer_make ("&x".toList) false false false false)).getD
        (tok_dummy, tokenizer_make ("&x".toList) false false false false)).1
      ((next (tokenizer_make ("&x".toList) false false false false)).getD
        (tok_dummy, tokenizer_make ("&x".toList) false false false false)).2).1
      (by decide) (by decide) (by decide)
  · exact (C5_background_stale (tokenizer_make ([] : List Char) false false false false)
      tok_dummy (tokenizer_make ([] : List Char) false false false false)).2
      ("&x".toList) false false false false

/-- C1 counterexample: on `2>&1` the first token is `RedirectFD` with text `"2"`,
offset 0 and length 3, but the source slice `s[0..3]` is `"2>&"`; a redirection
token is none of the exceptions the claim lists, so substring equality fails. -/
theorem C1_counterexample :
    (next (tokenizer_make ("2>&1".toList) false false false false)).map
        (fun p => (p.1.type, p.1.text, p.1.offset, p.1.length)) =
      some (TOK_REDIRECT_FD, "2".toList, 0, 3) ∧
    sliceCh ("2>&1".toList) 0 (0 + 3) = "2>&".toList ∧
    ("2".toList : List Char) ≠ "2>&".toList := by
  refine ⟨by decide, by decide, by decide⟩

/-- C3 counterexample: on `99999999999>` the driver emits a `RedirectOut` token
with text `"-1"` and no error, not an `InvalidRedirect` error token. -/
theorem C3_counterexample :
    (next (tokenizer_make ("99999999999>".toList) false false false false)).map
        (fun p => (p.1.type, p.1.text, p.1.error)) =
      some (TOK_REDIRECT_OUT, "-1".toList, TOK_ERROR_NONE) := by decide

/-- C3 amended: on `99999999999>` the sub-parser consumes all eleven digits plus
the sigil, the fd saturates to the sentinel -1, and the driver emits a
`RedirectOut` token whose text is `"-1"` rather than any error token. -/
theorem C3_overflow_saturates :
    read_redirection_or_fd_pipe ("99999999999>".toList) 0 = (12, TOK_REDIRECT_OUT, -1) ∧
    (next (tokenizer_make ("99999999999>".toList) false false false false)).map
        (fun p => (p.1.type, p.1.text, p.1.offset, p.1.length, p.1.error)) =
      some (TOK_REDIRECT_OUT, "-1".toList, 0, 12, TOK_ERROR_NONE) := by
  refine ⟨by decide, by decide⟩

/-- C4 counterexample: tokenizing `|foo` produces a `Pipe` token and then a
`String` token with text `"foo"`, yet `tok_first` returns the empty string: it
only inspects the very first token. -/
theorem C4_counterexample :
    tok_first ("|foo".toList) = [] ∧
    (next (tokenizer_make ("|foo".toList) false false true false)).map (fun p => p.1.type) =
      some TOK_PIPE ∧
    ((next (tokenizer_make ("|foo".toList) false false true false)).bind
        (fun p => next p.2)).map (fun p => (p.1.type, p.1.text)) =
      some (TOK_STRING, "foo".toList) := by
  refine ⟨by decide, by decide, by decide⟩

/-- C4 amended: `tok_first s` returns the text of the first token when that
token is a `String`, and the empty string otherwise (first token of another
kind, or no token at all). -/
theorem C4_first_token_only (s : List Char) :
    (∀ tok t', next (tokenizer_make s false false true false) = some (tok, t') →
      tok_first s = if tok.type = TOK_STRING then tok.text else []) ∧
    (next (tokenizer_make s false false true false) = none → tok_first s = []) := by
  constructor
  · intro tok t' h
    unfold tok_first
    rw [h]
  · intro h
    unfold tok_first
    rw [h]

/-- C4 witness: instantiating the amended theorem on the input `x`. -/
theorem C4_first_token_only_witness :
    tok_first ("x".toList) =
      (if (((next (tokenizer_make ("x".toList) false false true false)).getD
            (tok_dummy, tokenizer_make ("x".toList) false false true false)).1.type =
          TOK_STRING) then
        ((next (tokenizer_make ("x".toList) false false true false)).getD
          (tok_dummy, tokenizer_make ("x".toList) false false true false)).1.text
      else []) :=
  (C4_first_token_only ("x".toList)).1
    ((next (tokenizer_make ("x".toList) false false true false)).getD
      (tok_dummy, tokenizer_make ("x".toList) false false true false)).1
    ((next (tokenizer_make ("x".toList) false false true false)).getD
      (tok_dummy, tokenizer_make ("x".toList) false false true false)).2
    (by decide)

/-- C5 counterexample: on `a &` the second token is `Background` and its text
is `"a"` (the stale scratch buffer), not the empty string. -/
theorem C5_counterexample :
    ((next (tokenizer_make ("a &".toList) false false false false)).bind
        (fun p => next p.2)).map (fun p => (p.1.type, p.1.text)) =
      some (TOK_BACKGROUND, "a".toList) ∧
    ("a".toList : List Char) ≠ [] := by
  refine ⟨by decide, by decide⟩

/-- C7 counterexample: in `mode_array_brackets` a double quote is an ordinary
character: on `a["x]` (strict mode) the quote at offset 2 has no closing quote,
yet `read_string` succeeds with a full 5-character string token instead of
raising `UnterminatedQuote`. -/
theorem C7_counterexample :
    read_string ("a[\"x]".toList) false 0 = rs_result.str 5 ∧
    quote_end ("a[\"x]".toList) 2 = none := by
  refine ⟨by decide, by decide⟩


lemma tok_is_string_character_of_true (c : Char) (b : Bool)
    (h : tok_is_string_character c true = true) : tok_is_string_character c b = true := by
  unfold tok_is_string_character at h ⊢
  split at h
  · exact absurd h (by simp)
  · split at h
    · exact absurd h (by simp)
    · rename_i h1 h2
      rw [if_neg h1, if_neg h2]

lemma wcslen_scan_eq (s : List Char) (hnul : noNul s) :
    ∀ (fuel i : Nat), i ≤ s.length → s.length - i < fuel → wcslen_scan fuel s i = s.length := by
  intro fuel
  induction fuel with
  | zero => intro i _ h; omega
  | succ fuel ih =>
    intro i hi hf
    unfold wcslen_scan
    split
    · rename_i h
      have := (getC_nul_of_noNul s i hnul).mp h
      omega
    · rename_i h
      have hlt : i < s.length := lt_of_getC_ne s i h
      exact ih (i + 1) (by omega) (by omega)

lemma wcslen_from_eq (s : List Char) (i : Nat) (hnul : noNul s) (hi : i ≤ s.length) :
    wcslen_from s i = s.length :=
  wcslen_scan_eq s hnul (s.length + 1) i hi (by omega)

/-- C8: on a lone backslash at end of input, the string scanner raises
`UnterminatedEscape` positioned at the backslash in strict mode, and in
accept-unfinished mode ends the scan cleanly with the cursor exactly at end of
input (the cursor is rewound before the post-loop increment), leaving all other
loop state untouched. -/
theorem C8_trailing_escape (s : List Char) (bstart : Nat) (st : rs_state) (fuel : Nat)
    (hfuel : 2 ≤ fuel) (hnul : noNul s)
    (hbs : getC s st.buff = '\\') (hend : getC s (st.buff + 1) = '\x00') :
    st.buff + 1 = s.length ∧
    rs_loop fuel s false bstart st =
      rs_out.err TOK_UNTERMINATED_ESCAPE st.buff (st.buff + 1) ∧
    rs_loop fuel s true bstart st =
      rs_out.done s.length st.mode st.paran_count st.paran_offsets st.offset_of_bracket := by
  have hlt : st.buff < s.length := lt_of_getC_ne s st.buff (by rw [hbs]; decide)
  have hge : s.length ≤ st.buff + 1 := (getC_nul_of_noNul s (st.buff + 1) hnul).mp hend
  have hlen : st.buff + 1 = s.length := by omega
  obtain ⟨f, rfl⟩ : ∃ f, fuel = f + 2 := ⟨fuel - 2, by omega⟩
  have hm : myal '\\' = false := by decide
  have hstrict : rs_step s false bstart st =
      Sum.inr (rs_out.err TOK_UNTERMINATED_ESCAPE st.buff (st.buff + 1)) := by
    unfold rs_step
    simp only [hbs, hm, hend]
    simp
  have haccept : rs_step s true bstart st =
      Sum.inl { st with buff := st.buff + 1, do_loop := false } := by
    unfold rs_step
    simp only [hbs, hm, hend]
    simp
  have hnext : rs_step s true bstart { st with buff := st.buff + 1, do_loop := false } =
      Sum.inr (rs_out.done (st.buff + 1) st.mode st.paran_count st.paran_offsets
        st.offset_of_bracket) := by
    have := rs_step_nul s true bstart { st with buff := st.buff + 1, do_loop := false }
      (by simp only; exact hend)
    simpa using this
  refine ⟨hlen, ?_, ?_⟩
  · show rs_loop (f + 1 + 1) s false bstart st = _
    unfold rs_loop
    rw [hstrict]
  · show rs_loop (f + 1 + 1) s true bstart st = _
    unfold rs_loop
    rw [haccept]
    unfold rs_loop
    rw [hnext, hlen]

/-- C8 witness: the input `ab\` with the scanner at the backslash. -/
theorem C8_trailing_escape_witness :
    rs_loop 2 ("ab\\".toList) false 0 ⟨2, mode_regular_text, 0, [], 0, false, true⟩ =
      rs_out.err TOK_UNTERMINATED_ESCAPE 2 3 ∧
    rs_loop 2 ("ab\\".toList) true 0 ⟨2, mode_regular_text, 0, [], 0, false, true⟩ =
      rs_out.done 3 mode_regular_text 0 [] 0 :=
  ⟨(C8_trailing_escape ("ab\\".toList) 0 ⟨2, mode_regular_text, 0, [], 0, false, true⟩ 2
      (by decide) (by decide) (by decide) (by decide)).2.1,
   (C8_trailing_escape ("ab\\".toList) 0 ⟨2, mode_regular_text, 0, [], 0, false, true⟩ 2
      (by decide) (by decide) (by decide) (by decide)).2.2⟩

/-- C7 (amended): while the string scanner is consuming a bareword, a quote
character triggers the quote scanner in modes Regular, Subshell and
ArrayBracketsAndSubshell: a found closer resumes the scan just past it, and an
unterminated quote yields `UnterminatedQuote` at the opening quote in strict
mode or silently ends the token at end of input in accept-unfinished mode.  In
mode ArrayBrackets a quote is an ordinary character and the scan just moves on. -/
theorem C7_quote_scan (s : List Char) (au : Bool) (bstart : Nat) (st : rs_state) (fuel : Nat)
    (hnul : noNul s) (hbuf : st.buff ≤ s.length)
    (hq : getC s st.buff = '\'' ∨ getC s st.buff = '"') (hdl : st.do_loop = true) :
    (st.mode ≠ mode_array_brackets →
      (∀ e, quote_end s st.buff = some e →
        rs_loop (fuel + 1) s au bstart st =
          rs_loop fuel s au bstart { st with buff := e + 1, first := false }) ∧
      (quote_end s st.buff = none →
        rs_loop (fuel + 1) s false bstart st =
          rs_out.err TOK_UNTERMINATED_QUOTE st.buff s.length ∧
        rs_loop (fuel + 1) s true bstart st =
          rs_out.done s.length st.mode st.paran_count st.paran_offsets
            st.offset_of_bracket)) ∧
    (st.mode = mode_array_brackets →
      rs_loop (fuel + 1) s au bstart st =
        rs_loop fuel s au bstart { st with buff := st.buff + 1, first := false }) := by
  have hwl : wcslen_from s st.buff = s.length := wcslen_from_eq s st.buff hnul hbuf
  have hm1 : myal '\'' = false := by decide
  have hm2 : myal '"' = false := by decide
  constructor
  · intro hmode
    constructor
    · intro e he
      have hstep : rs_step s au bstart st =
          Sum.inl { st with buff := e + 1, first := false } := by
        unfold rs_step
        cases hmo : st.mode <;> rcases hq with hq | hq <;>
          simp [hq, hm1, hm2, he, hdl] <;> exact absurd hmo hmode
      show rs_loop (fuel + 1) s au bstart st = _
      conv_lhs => unfold rs_loop
      rw [hstep]
    · intro he
      constructor
      · have hstep : rs_step s false bstart st =
            Sum.inr (rs_out.err TOK_UNTERMINATED_QUOTE st.buff (wcslen_from s st.buff)) := by
          unfold rs_step
          cases hmo : st.mode <;> rcases hq with hq | hq <;>
            simp [hq, hm1, hm2, he, hdl] <;> exact absurd hmo hmode
        show rs_loop (fuel + 1) s false bstart st = _
        unfold rs_loop
        rw [hstep, hwl]
      · have hstep : rs_step s true bstart st =
            Sum.inr (rs_out.done (wcslen_from s st.buff) st.mode st.paran_count
              st.paran_offsets st.offset_of_bracket) := by
          unfold rs_step
          cases hmo : st.mode <;> rcases hq with hq | hq <;>
            simp [hq, hm1, hm2, he, hdl] <;> exact absurd hmo hmode
        show rs_loop (fuel + 1) s true bstart st = _
        unfold rs_loop
        rw [hstep, hwl]
  · intro hmode
    have hstep : rs_step s au bstart st =
        Sum.inl { st with buff := st.buff + 1, first := false } := by
      unfold rs_step
      rcases hq with hq | hq <;> simp [hq, hm1, hm2, hmode, hdl]
    show rs_loop (fuel + 1) s au bstart st = _
    conv_lhs => unfold rs_loop
    rw [hstep]

/-- C7 witness: an unterminated double quote at the start of `"ab`, scanned in
regular mode: strict errors, accept-unfinished ends at end of input. -/
theorem C7_quote_scan_witness :
    rs_loop 6 ("\"ab".toList) false 0 (rs_init 0) =
      rs_out.err TOK_UNTERMINATED_QUOTE 0 3 ∧
    rs_loop 6 ("\"ab".toList) true 0 (rs_init 0) =
      rs_out.done 3 mode_regular_text 0 (List.replicate 96 0) 0 :=
  ((C7_quote_scan ("\"ab".toList) false 0 (rs_init 0) 5 (by decide) (by decide)
      (Or.inr (by decide)) (by decide)).1 (by decide)).2 (by decide)


/-- A character the string scanner passes over without any special handling in
regular mode: a letter (fast path) or an ordinary string character that is not
an escape, a quote, an open paren or an open bracket. -/
def rs_plain (c : Char) : Bool :=
  myal c ||
    (tok_is_string_character c true &&
      !(c = '\\' || c = '\'' || c = '"' || c = '(' || c = '['))

lemma rs_plain_of_myal (c : Char) (h : myal c = true) : rs_plain c = true := by
  simp [rs_plain, h]

lemma rs_step_plain (s : List Char) (au : Bool) (bstart : Nat) (st : rs_state)
    (hmode : st.mode = mode_regular_text) (hdl : st.do_loop = true)
    (hp : rs_plain (getC s st.buff) = true) :
    rs_step s au bstart st = Sum.inl { st with buff := st.buff + 1, first := false } := by
  cases hm : myal (getC s st.buff) with
  | true =>
    unfold rs_step
    simp [hm, hdl]
  | false =>
    rw [rs_plain, hm] at hp
    simp only [Bool.false_or, Bool.and_eq_true, Bool.not_eq_true', Bool.or_eq_false_iff,
      decide_eq_false_iff_not] at hp
    obtain ⟨htc, hns⟩ := hp
    obtain ⟨⟨⟨⟨h1, h2⟩, h3⟩, h4⟩, h5⟩ := hns
    have hsf := tok_is_string_character_of_true (getC s st.buff) st.first htc
    unfold rs_step
    rw [hmode]
    simp [hm, h1, h2, h3, h4, h5, hsf, hdl, hmode]

lemma rs_plain_run (s : List Char) (au : Bool) (bstart : Nat) :
    ∀ (fuel : Nat) (st : rs_state), st.mode = mode_regular_text → st.do_loop = true →
      st.buff ≤ s.length → noNul s →
      (∀ j, st.buff ≤ j → j < s.length → rs_plain (getC s j) = true) →
      s.length - st.buff < fuel →
      rs_loop fuel s au bstart st =
        rs_out.done s.length mode_regular_text st.paran_count st.paran_offsets
          st.offset_of_bracket := by
  intro fuel
  induction fuel with
  | zero => intro st _ _ _ _ _ h; omega
  | succ fuel ih =>
    intro st hmode hdl hbuf hnul hpl hf
    by_cases hc : getC s st.buff = '\x00'
    · have hge := (getC_nul_of_noNul s st.buff hnul).mp hc
      have heq : st.buff = s.length := by omega
      have hstep := rs_step_nul s au bstart st hc
      conv_lhs => unfold rs_loop
      rw [hstep, heq, hmode]
    · have hlt := lt_of_getC_ne s st.buff hc
      have hstep := rs_step_plain s au bstart st hmode hdl (hpl st.buff le_rfl hlt)
      conv_lhs => unfold rs_loop
      rw [hstep]
      exact ih { st with buff := st.buff + 1, first := false } (by simp [hmode])
        (by simp [hdl]) (by simp; omega) hnul
        (fun j hj hjl => hpl j (by simp at hj; omega) hjl) (by simp; omega)

lemma sliceCh_all (s : List Char) : sliceCh s 0 s.length = s := by
  simp [sliceCh]

/-- The letters and the `#` are all passed over by the string scanner, so on
`a :: p ++ # :: q` the whole input is one string token. -/
lemma hash_word_noNul (a : Char) (p q : List Char)
    (hpa : ∀ c ∈ a :: p, myal c = true) (hqa : ∀ c ∈ q, myal c = true) :
    noNul ((a :: p) ++ '#' :: q) := by
  intro hmem
  rcases List.mem_append.mp hmem with hm | hm
  · exact absurd (hpa _ hm) (by decide)
  · rcases List.mem_cons.mp hm with he | hm'
    · exact absurd he (by decide)
    · exact absurd (hqa _ hm') (by decide)

lemma myal_notspecial (c : Char) (h : myal c = true) :
    c ≠ '\x00' ∧ c ≠ '\\' ∧ c ≠ '#' ∧ c ≠ '\r' ∧ c ≠ '\n' ∧ c ≠ ';' ∧ c ≠ '&' ∧
      c ≠ '|' ∧ c ≠ '>' ∧ c ≠ '<' ∧ c ≠ '^' ∧ iswspace_not_nl c = false ∧
      iswdigit c = false := by
  have hb : (97 ≤ c.toNat ∧ c.toNat ≤ 122) ∨ (65 ≤ c.toNat ∧ c.toNat ≤ 90) := by
    simpa [myal, Bool.or_eq_true, Bool.and_eq_true, decide_eq_true_eq] using h
  refine ⟨?_, ?_, ?_, ?_, ?_, ?_, ?_, ?_, ?_, ?_, ?_, ?_, ?_⟩
  case _ => intro he; rw [he] at h; exact absurd h (by decide)
  case _ => intro he; rw [he] at h; exact absurd h (by decide)
  case _ => intro he; rw [he] at h; exact absurd h (by decide)
  case _ => intro he; rw [he] at h; exact absurd h (by decide)
  case _ => intro he; rw [he] at h; exact absurd h (by decide)
  case _ => intro he; rw [he] at h; exact absurd h (by decide)
  case _ => intro he; rw [he] at h; exact absurd h (by decide)
  case _ => intro he; rw [he] at h; exact absurd h (by decide)
  case _ => intro he; rw [he] at h; exact absurd h (by decide)
  case _ => intro he; rw [he] at h; exact absurd h (by decide)
  case _ => intro he; rw [he] at h; exact absurd h (by decide)
  case _ =>
    have h1 : ¬(c = ' ' ∨ c = '\t' ∨ c = '\r') := by
      rintro (he | he | he) <;> (rw [he] at h; exact absurd h (by decide))
    have h2 : c ≠ '\n' := by intro he; rw [he] at h; exact absurd h (by decide)
    unfold iswspace_not_nl
    rw [if_neg h1, if_neg h2]
    simp only [iswspace, Bool.or_eq_false_iff, Bool.and_eq_false_iff,
      decide_eq_false_iff_not]
    omega
  case _ =>
    simp only [iswdigit, Bool.and_eq_false_iff, decide_eq_false_iff_not]
    omega

lemma skip_ws_stop (s : List Char) (i : Nat) (clac : Bool) (fuel : Nat)
    (h1 : ¬(getC s i = '\\' ∧ getC s (i + 1) = '\n'))
    (h2 : iswspace_not_nl (getC s i) = false) :
    skip_ws fuel s i clac = (i, clac) := by
  cases fuel with
  | zero => rfl
  | succ fuel => unfold skip_ws; simp [h1, h2]

lemma comments_loop_stop (s : List Char) (sc clac : Bool) (i : Nat)
    (h : getC s i ≠ '#') :
    ∀ fuel, comments_loop fuel s sc clac i = cmt_out.through i := by
  intro fuel
  cases fuel with
  | zero => rfl
  | succ fuel => unfold comments_loop; rw [if_neg h]

/-- C10: `#` starts a comment only in the pre-token phase: a bareword made of
letters with a `#` after its first character is emitted as one `String` token
covering the whole input including the `#` (the `#` is an ordinary string
character in any position of a token), whereas a leading `#` on an otherwise
identical input produces no token at all. -/
theorem C10_hash_mid_token (a : Char) (p q : List Char)
    (hpa : ∀ c ∈ a :: p, myal c = true) (hqa : ∀ c ∈ q, myal c = true) :
    tok_is_string_character '#' true = true ∧
    tok_is_string_character '#' false = true ∧
    (∃ t', next (tokenizer_make ((a :: p) ++ '#' :: q) false false false false) =
      some (⟨(a :: p) ++ '#' :: q, TOK_STRING, 0, ((a :: p) ++ '#' :: q).length,
             TOK_ERROR_NONE, 0⟩, t')) ∧
    next (tokenizer_make ('#' :: 'a' :: 'b' :: []) false false false false) = none := by
  refine ⟨by decide, by decide, ?_, by decide⟩
  set s : List Char := (a :: p) ++ '#' :: q with hs
  have hnul : noNul s := hash_word_noNul a p q hpa hqa
  obtain ⟨hn0, hbs, hhash, hcr, hnl, hsemi, hamp, hpipe, hgt, hlt2, hcaret, hwsnl, hdig⟩ :=
    myal_notspecial a (hpa a (by simp))
  have hget0 : getC s 0 = a := rfl
  have hplain : ∀ j, (0 : Nat) ≤ j → j < s.length → rs_plain (getC s j) = true := by
    intro j _ hj
    have hmem := getC_mem s j hj
    rcases List.mem_append.mp hmem with hm | hm
    · exact rs_plain_of_myal _ (hpa _ hm)
    · rcases List.mem_cons.mp hm with he | hm'
      · rw [he]; decide
      · exact rs_plain_of_myal _ (hqa _ hm')
  have hrun := rs_plain_run s false 0 (s.length + 1) (rs_init 0) rfl rfl (by simp [rs_init])
    hnul (by simpa [rs_init] using hplain) (by simp [rs_init])
  have hrs : read_string s false 0 = rs_result.str s.length := by
    unfold read_string
    rw [hrun]
    rfl
  have hskip : skip_ws (s.length + 1) s 0 false = (0, false) :=
    skip_ws_stop s 0 false _ (by rw [hget0]; intro hx; exact hbs hx.1) (by rw [hget0]; exact hwsnl)
  have hcm : comments_loop (s.length + 1) s false false 0 = cmt_out.through 0 :=
    comments_loop_stop s false false 0 (by rw [hget0]; exact hhash) _
  have htn : tok_next (tokenizer_make s false false false false) =
      (true, ⟨s, s.length, false, false, false, false, true, false,
        sliceCh s 0 s.length, 0, TOK_STRING, TOK_ERROR_NONE, 0⟩) := by
    unfold tok_next tokenizer_make
    dsimp only
    rw [if_neg (by decide : ¬(true = false))]
    rw [hskip]
    dsimp only
    rw [hcm]
    dsimp only
    rw [hget0]
    rw [if_neg hn0, if_neg (by rintro (h | h | h); exacts [hcr h, hnl h, hsemi h]),
      if_neg hamp, if_neg hpipe,
      if_neg (by rintro (h | h | h); exacts [hgt h, hlt2 h, hcaret h]), hdig]
    simp only [Bool.false_eq_true, if_false]
    rw [if_neg (by omega : ¬((0 : Nat) > 0))]
    rw [hrs]
  refine ⟨(tok_next (tokenizer_make s false false false false)).2, ?_⟩
  unfold next
  rw [htn]
  simp [mk_tok, sliceCh_all]

/-- C10 witness: the bareword `x#y` is one `String` token covering the whole
input, `#` included. -/
theorem C10_hash_mid_token_witness :
    ∃ t', next (tokenizer_make (('x' :: []) ++ '#' :: ['y']) false false false false) =
      some (⟨('x' :: []) ++ '#' :: ['y'], TOK_STRING, 0,
             (('x' :: []) ++ '#' :: ['y']).length, TOK_ERROR_NONE, 0⟩, t') :=
  (C10_hash_mid_token 'x' [] ['y'] (by decide) (by decide)).2.2.1

lemma getC_cons_succ (c : Char) (s : List Char) (i : Nat) :
    getC (c :: s) (i + 1) = getC s i := by
  simp [getC]

lemma getC_append_right (l1 l2 : List Char) (k : Nat) :
    getC (l1 ++ l2) (l1.length + k) = getC l2 k := by
  unfold getC
  rw [List.getD_append_right l1 l2 '\x00' (l1.length + k) (by omega)]
  congr 1
  omega

lemma digit_notspecial (c : Char) (h : iswdigit c = true) :
    c ≠ '\x00' ∧ c ≠ '\\' ∧ c ≠ '#' ∧ c ≠ '\r' ∧ c ≠ '\n' ∧ c ≠ ';' ∧ c ≠ '&' ∧
      c ≠ '|' ∧ c ≠ '>' ∧ c ≠ '<' ∧ c ≠ '^' ∧ iswspace_not_nl c = false := by
  have hb : 48 ≤ c.toNat ∧ c.toNat ≤ 57 := by
    simpa [iswdigit, Bool.and_eq_true, decide_eq_true_eq] using h
  refine ⟨?_, ?_, ?_, ?_, ?_, ?_, ?_, ?_, ?_, ?_, ?_, ?_⟩
  case _ => intro he; rw [he] at h; exact absurd h (by decide)
  case _ => intro he; rw [he] at h; exact absurd h (by decide)
  case _ => intro he; rw [he] at h; exact absurd h (by decide)
  case _ => intro he; rw [he] at h; exact absurd h (by decide)
  case _ => intro he; rw [he] at h; exact absurd h (by decide)
  case _ => intro he; rw [he] at h; exact absurd h (by decide)
  case _ => intro he; rw [he] at h; exact absurd h (by decide)
  case _ => intro he; rw [he] at h; exact absurd h (by decide)
  case _ => intro he; rw [he] at h; exact absurd h (by decide)
  case _ => intro he; rw [he] at h; exact absurd h (by decide)
  case _ => intro he; rw [he] at h; exact absurd h (by decide)
  case _ =>
    have h1 : ¬(c = ' ' ∨ c = '\t' ∨ c = '\r') := by
      rintro (he | he | he) <;> (rw [he] at h; exact absurd h (by decide))
    have h2 : c ≠ '\n' := by intro he; rw [he] at h; exact absurd h (by decide)
    unfold iswspace_not_nl
    rw [if_neg h1, if_neg h2]
    simp only [iswspace, Bool.or_eq_false_iff, Bool.and_eq_false_iff,
      decide_eq_false_iff_not]
    omega

lemma rr_digits_shift (c : Char) (s : List Char) :
    ∀ (fuel i : Nat) (acc : Int), rr_digits fuel (c :: s) (i + 1) acc =
      ((rr_digits fuel s i acc).1 + 1, (rr_digits fuel s i acc).2) := by
  intro fuel
  induction fuel with
  | zero => intro i acc; rfl
  | succ fuel ih =>
    intro i acc
    unfold rr_digits
    rw [getC_cons_succ]
    by_cases hd : iswdigit (getC s i) = true
    · rw [if_pos hd, if_pos hd]
      exact ih (i + 1) _
    · rw [if_neg hd, if_neg hd]

lemma rr_digits_run :
    ∀ (ds rest : List Char) (fuel : Nat) (acc : Int),
      (∀ c ∈ ds, iswdigit c = true) → iswdigit (getC rest 0) = false →
      ds.length < fuel →
      (rr_digits fuel (ds ++ rest) 0 acc).1 = ds.length := by
  intro ds
  induction ds with
  | nil =>
    intro rest fuel acc _ hr hf
    obtain ⟨f, rfl⟩ : ∃ f, fuel = f + 1 := ⟨fuel - 1, by omega⟩
    unfold rr_digits
    simp [hr]
  | cons d ds ih =>
    intro rest fuel acc hall hr hf
    obtain ⟨f, rfl⟩ : ∃ f, fuel = f + 1 := ⟨fuel - 1, by omega⟩
    unfold rr_digits
    rw [show (d :: ds) ++ rest = d :: (ds ++ rest) from rfl]
    have hd : iswdigit (getC (d :: (ds ++ rest)) 0) = true := hall d (by simp)
    rw [if_pos hd]
    rw [rr_digits_shift]
    simp only [List.length_cons]
    rw [ih rest f _ (fun c hc => hall c (by simp [hc])) hr (by simpa using hf)]

lemma rr_on_digits_pipe (ds rest : List Char) (hne : ds ≠ [])
    (hall : ∀ c ∈ ds, iswdigit c = true) :
    read_redirection_or_fd_pipe (ds ++ '>' :: '|' :: rest) 0 =
      (ds.length + 2, TOK_PIPE, rr_fd_val (ds ++ '>' :: '|' :: rest) 0) := by
  have hd1 : (rr_digits_res (ds ++ '>' :: '|' :: rest) 0).1 = ds.length := by
    unfold rr_digits_res
    exact rr_digits_run ds ('>' :: '|' :: rest) _ 0 hall (by rfl)
      (by simp; omega)
  have hg0 : getC (ds ++ '>' :: '|' :: rest) ds.length = '>' := by
    simpa using getC_append_right ds ('>' :: '|' :: rest) 0
  have hg1 : getC (ds ++ '>' :: '|' :: rest) (ds.length + 1) = '|' := by
    simpa [getC] using getC_append_right ds ('>' :: '|' :: rest) 1
  have hlen0 : ds.length ≠ 0 := by
    intro h0
    exact hne (List.eq_nil_of_length_eq_zero h0)
  have hinfer : rr_infer_err (ds ++ '>' :: '|' :: rest) 0 = false := by
    unfold rr_infer_err
    rw [hd1, if_neg hlen0]
  have hm1v : rr_m1 (ds ++ '>' :: '|' :: rest) 0 =
      (TOK_REDIRECT_OUT, ds.length + 1, false) := by
    unfold rr_m1
    rw [hd1, hg0, if_pos (Or.inl rfl), hg1, if_neg (by decide)]
  unfold read_redirection_or_fd_pipe
  rw [hinfer, hm1v]
  simp [hg1]

/-- C6: an input token of decimal digits immediately followed by `>|` is a
`Pipe` token whose text is the parsed fd rendered in decimal and whose extent
covers the digits and the `>|`, except when the parsed fd equals 0, in which
case the driver emits an `InvalidPipe` error token at the start of the token
and the stream stops. -/
theorem C6_digit_fd_pipe (ds rest : List Char) (au sc sq sb : Bool) (hne : ds ≠ [])
    (hall : ∀ c ∈ ds, iswdigit c = true) :
    ((read_redirection_or_fd_pipe (ds ++ '>' :: '|' :: rest) 0).2.2 = 0 →
      ∃ t', next (tokenizer_make (ds ++ '>' :: '|' :: rest) au sc sq sb) =
        some (⟨(if sq then [] else canonical_message TOK_INVALID_PIPE),
               TOK_ERROR, 0, 0, TOK_INVALID_PIPE, 0⟩, t') ∧ t'.has_next = false) ∧
    ((read_redirection_or_fd_pipe (ds ++ '>' :: '|' :: rest) 0).2.2 ≠ 0 →
      ∃ t', next (tokenizer_make (ds ++ '>' :: '|' :: rest) au sc sq sb) =
        some (⟨to_string (read_redirection_or_fd_pipe (ds ++ '>' :: '|' :: rest) 0).2.2,
               TOK_PIPE, 0, ds.length + 2, TOK_ERROR_NONE, 0⟩, t')) := by
  obtain ⟨d, ds', rfl⟩ := List.exists_cons_of_ne_nil hne
  obtain ⟨hn0, hbs2, hhash, hcr, hnl, hsemi, hamp, hpipe, hgt, hlt2, hcaret, hwsnl⟩ :=
    digit_notspecial d (hall d (by simp))
  have hd0 : iswdigit d = true := hall d (by simp)
  have hget0 : getC ((d :: ds') ++ '>' :: '|' :: rest) 0 = d := rfl
  have hskip : skip_ws (((d :: ds') ++ '>' :: '|' :: rest).length + 1)
      ((d :: ds') ++ '>' :: '|' :: rest) 0 false = (0, false) :=
    skip_ws_stop _ 0 false _ (by rw [hget0]; intro hx; exact hbs2 hx.1)
      (by rw [hget0]; exact hwsnl)
  have hcm : comments_loop (((d :: ds') ++ '>' :: '|' :: rest).length + 1)
      ((d :: ds') ++ '>' :: '|' :: rest) sc false 0 = cmt_out.through 0 :=
    comments_loop_stop _ sc false 0 (by rw [hget0]; exact hhash) _
  have hrr := rr_on_digits_pipe (d :: ds') rest hne hall
  constructor
  · intro hfd
    rw [hrr] at hfd
    dsimp only at hfd
    have htn : tok_next (tokenizer_make ((d :: ds') ++ '>' :: '|' :: rest) au sc sq sb) =
        (true, call_error ⟨(d :: ds') ++ '>' :: '|' :: rest, 0, au, sc, sq, sb, true,
          false, [], 0, TOK_NONE, TOK_ERROR_NONE, 0⟩ TOK_INVALID_PIPE 0) := by
      unfold tok_next tokenizer_make
      dsimp only
      rw [if_neg (by decide : ¬(true = false))]
      rw [hskip]
      dsimp only
      rw [hcm]
      dsimp only
      rw [hget0]
      rw [if_neg hn0, if_neg (by rintro (h | h | h); exacts [hcr h, hnl h, hsemi h]),
        if_neg hamp, if_neg hpipe,
        if_neg (by rintro (h | h | h); exacts [hgt h, hlt2 h, hcaret h])]
      rw [hrr]
      simp only [hd0, if_true]
      try dsimp only
      rw [if_pos (by omega : (d :: ds').length + 2 > 0)]
      rw [if_pos ⟨by trivial, hfd⟩]
    refine ⟨(tok_next (tokenizer_make ((d :: ds') ++ '>' :: '|' :: rest) au sc sq sb)).2,
      ?_, ?_⟩
    · unfold next
      rw [htn]
      simp [mk_tok, call_error]
    · rw [htn]
      simp [call_error]
  · intro hfd
    rw [hrr] at hfd
    dsimp only at hfd
    have htn : tok_next (tokenizer_make ((d :: ds') ++ '>' :: '|' :: rest) au sc sq sb) =
        (true, ⟨(d :: ds') ++ '>' :: '|' :: rest, 0 + ((d :: ds').length + 2), au, sc,
          sq, sb, true, false,
          to_string (rr_fd_val ((d :: ds') ++ '>' :: '|' :: rest) 0), 0, TOK_PIPE,
          TOK_ERROR_NONE, 0⟩) := by
      unfold tok_next tokenizer_make
      dsimp only
      rw [if_neg (by decide : ¬(true = false))]
      rw [hskip]
      dsimp only
      rw [hcm]
      dsimp only
      rw [hget0]
      rw [if_neg hn0, if_neg (by rintro (h | h | h); exacts [hcr h, hnl h, hsemi h]),
        if_neg hamp, if_neg hpipe,
        if_neg (by rintro (h | h | h); exacts [hgt h, hlt2 h, hcaret h])]
      rw [hrr]
      simp only [hd0, if_true]
      try dsimp only
      rw [if_pos (by omega : (d :: ds').length + 2 > 0)]
      rw [if_neg (fun hc => hfd hc.2)]
    refine ⟨(tok_next (tokenizer_make ((d :: ds') ++ '>' :: '|' :: rest) au sc sq sb)).2,
      ?_⟩
    unfold next
    rw [htn, hrr]
    simp [mk_tok]

/-- C6 witness: `0>|` gives the `InvalidPipe` error (fd 0), `2>|x` the `Pipe`
token with text `2` and length 4. -/
theorem C6_digit_fd_pipe_witness :
    (∃ t', next (tokenizer_make (['0'] ++ '>' :: '|' :: []) false false false false) =
      some (⟨canonical_message TOK_INVALID_PIPE, TOK_ERROR, 0, 0, TOK_INVALID_PIPE, 0⟩,
        t') ∧ t'.has_next = false) ∧
    (∃ t', next (tokenizer_make (['2'] ++ '>' :: '|' :: ['x']) false false false false) =
      some (⟨to_string (read_redirection_or_fd_pipe (['2'] ++ '>' :: '|' :: ['x']) 0).2.2,
             TOK_PIPE, 0, 3, TOK_ERROR_NONE, 0⟩, t')) := by
  constructor
  · have h := (C6_digit_fd_pipe ['0'] [] false false false false (by decide)
      (by decide)).1 (by decide)
    simpa using h
  · have h := (C6_digit_fd_pipe ['2'] ['x'] false false false false (by decide)
      (by decide)).2 (by decide)
    simpa using h

end FishTok
